import Mathlib

/-!
# godror-crud: query configuration and product repository

A shallow embedding of `internal/config/properties.go`, the property reader of
`internal/config/app.go` and `internal/repo/product_repo.go`.

Go strings are modelled by the list of their code points (`Str`), that is, the text is
taken to be valid UTF-8.  The functions of the Go standard library the code calls
(`strings.TrimSpace`, `strings.HasPrefix`, `strings.Contains`, `strings.SplitN`,
`strings.ToLower`, `bufio.Scanner`) are modelled after their documented behaviour.
The case table of `unicode.ToLower` is a parameter `tbl` of everything that lowers a key;
a string of ASCII characters never consults it.

The file system is a function from paths to files.  One pass of `Manager.Start` sees it
twice, at `os.Stat` and at `os.Open`, and the two views may differ.

The store is the table PRODUCTS as a list of rows.  It gives the six statements of
`defaultQueries` their SQL meaning and refuses any other text.  A record `Faults` says
which storage calls of an operation report a failure.
-/

namespace GodrorCrud

/-! ## Strings -/

/-- A Go string, as the list of its code points. -/
abbrev Str := List Char

/-- The predicate `unicode.IsSpace`: the Latin-1 spaces and the code points with the
Unicode White_Space property. -/
def isSpace (c : Char) : Bool :=
  let n := c.toNat
  n = 0x09 || n = 0x0A || n = 0x0B || n = 0x0C || n = 0x0D || n = 0x20 ||
  n = 0x85 || n = 0xA0 || n = 0x1680 || (0x2000 ≤ n && n ≤ 0x200A) ||
  n = 0x2028 || n = 0x2029 || n = 0x202F || n = 0x205F || n = 0x3000

/-- The function `strings.TrimSpace`: leading, then trailing white space removed. -/
def TrimSpace (s : Str) : Str :=
  List.rdropWhile isSpace (List.dropWhile isSpace s)

/-- The function `strings.HasPrefix`. -/
def HasPrefix (s p : Str) : Bool :=
  p.isPrefixOf s

/-- The function `strings.Contains` for a separator of one character. -/
def Contains (s : Str) (sep : Char) : Bool :=
  s.contains sep

/-- The function `strings.SplitN(s, sep, 2)` for a separator of one character: the text
before and after the first occurrence of `sep`, or `s` alone when `sep` does not occur. -/
def SplitN2 (s : Str) (sep : Char) : List Str :=
  match s.dropWhile (fun c => c != sep) with
  | [] => [s]
  | _ :: rest => [s.takeWhile (fun c => c != sep), rest]

/-- The ASCII branch of `strings.ToLower`: `A`..`Z` are moved to `a`..`z`. -/
def asciiLower (c : Char) : Char :=
  if 65 ≤ c.toNat ∧ c.toNat ≤ 90 then Char.ofNat (c.toNat + 32) else c

/-- The function `strings.ToLower`.  A string of ASCII characters only is mapped by
`asciiLower`; any other string is mapped rune by rune through `unicode.ToLower`, the case
table of the Unicode character database, which is the parameter `tbl`. -/
def ToLower (tbl : Char → Char) (s : Str) : Str :=
  if s.all (fun c => c.toNat < 128) then s.map asciiLower else s.map tbl

/-- A table for `ToLower` that changes ASCII letters only. -/
def asciiTable : Char → Char := asciiLower

/-! ## bufio.Scanner -/

/-- The constant `bufio.MaxScanTokenSize`. -/
def MaxScanTokenSize : Nat := 64 * 1024

/-- Number of bytes of the UTF-8 encoding of a string. -/
def byteLen (s : Str) : Nat :=
  (s.map Char.utf8Size).sum

/-- The pieces of a text between line feeds; a final piece that is empty is not a line
(`bufio.ScanLines` returns no token for empty data at the end of the input). -/
def splitLF : Str → List Str
  | [] => []
  | c :: cs =>
    if c = '\n' then [] :: splitLF cs
    else
      match splitLF cs with
      | [] => [[c]]
      | l :: ls => (c :: l) :: ls

/-- The helper `dropCR` of `bufio.ScanLines`: one trailing carriage return is removed. -/
def dropCR (s : Str) : Str :=
  if s.getLast? = some '\r' then s.dropLast else s

/-- Errors of the operating system, the scanner and the store. -/
inductive Err where
  | notExist
  | permission
  | tooLong
  | noRows
  | storage
  deriving DecidableEq, Repr

instance instDecEqExcept {ε α : Type} [DecidableEq ε] [DecidableEq α] :
    DecidableEq (Except ε α)
  | .ok a, .ok b => if h : a = b then isTrue (by rw [h]) else isFalse (by intro h2; cases h2; exact h rfl)
  | .error a, .error b =>
    if h : a = b then isTrue (by rw [h]) else isFalse (by intro h2; cases h2; exact h rfl)
  | .ok _, .error _ => isFalse (by intro h; cases h)
  | .error _, .ok _ => isFalse (by intro h; cases h)

/-- The loop `for s.Scan() { ... s.Text() ... }` followed by `s.Err()`, for a scanner with
the default split function and buffer.  The scanner stops with `bufio.ErrTooLong` at a
line that does not fit its buffer: one of `MaxScanTokenSize` bytes or more before the line
feed.  The lines read before the error are of no consequence to either caller, which then
returns the error alone. -/
def scanLines (content : Str) : Except Err (List Str) :=
  let raw := splitLF content
  if raw.all (fun l => decide (byteLen l < MaxScanTokenSize)) then .ok (raw.map dropCR)
  else .error .tooLong

/-! ## The property parser -/

/-- A Go `map[string]string`. -/
abbrev GoMap := Str → Option Str

/-- The empty map `map[string]string{}`. -/
def GoMap.empty : GoMap := fun _ => none

/-- The assignment `m[k] = v`. -/
def GoMap.set (m : GoMap) (k v : Str) : GoMap :=
  fun k' => if k' = k then some v else m k'

/-- The body of the scanning loop shared by `readProperties` and `loadQueries`, up to the
assignment to the map: `none` where the loop says `continue`, otherwise the trimmed key and
the trimmed value. -/
def parseLine (text : Str) : Option (Str × Str) :=
  let line := TrimSpace text
  if line = [] || HasPrefix line ['#'] || HasPrefix line [';'] then none
  else
    let sep := if !Contains line '=' && Contains line ':' then ':' else '='
    match SplitN2 line sep with
    | [k, v] => some (TrimSpace k, TrimSpace v)
    | _ => none

/-- One pass of the scanning loop of `readProperties`: `out[key] = val` for a line that is
kept. -/
def readPropertiesStep (out : GoMap) (text : Str) : GoMap :=
  match parseLine text with
  | none => out
  | some (key, val) => out.set key val

/-- The scanning loop of `readProperties`. -/
def readPropertiesLoop (lines : List Str) : GoMap :=
  lines.foldl readPropertiesStep GoMap.empty

/-- One pass of the scanning loop of `loadQueries`:
`values[strings.ToLower(key)] = val` for a line that is kept. -/
def loadQueriesStep (tbl : Char → Char) (values : GoMap) (text : Str) : GoMap :=
  match parseLine text with
  | none => values
  | some (key, val) => values.set (ToLower tbl key) val

/-- The scanning loop of `loadQueries`. -/
def loadQueriesLoop (tbl : Char → Char) (lines : List Str) : GoMap :=
  lines.foldl (loadQueriesStep tbl) GoMap.empty

/-! ## Files -/

/-- A point in time (`time.Time`); the zero value is `0` and `After` is `>`. -/
abbrev Time := Int

/-- A regular file: its modification time, whether the process may read it, its text. -/
structure File where
  modTime : Time
  readable : Bool
  content : Str
  deriving DecidableEq

/-- The file system: what is found at a path. -/
abbrev FS := Str → Option File

/-- The call `os.Stat(path)`, as far as the code uses it: the modification time. -/
def Stat (fs : FS) (path : Str) : Except Err Time :=
  match fs path with
  | none => .error .notExist
  | some f => .ok f.modTime

/-- The call `os.Open(path)`: the text the scanner will read. -/
def Open (fs : FS) (path : Str) : Except Err Str :=
  match fs path with
  | none => .error .notExist
  | some f => if f.readable then .ok f.content else .error .permission

/-- The function `readProperties` of `internal/config/app.go`. -/
def readProperties (fs : FS) (path : Str) : Except Err GoMap :=
  match Open fs path with
  | .error e => .error e
  | .ok content =>
    match scanLines content with
    | .error e => .error e
    | .ok lines => .ok (readPropertiesLoop lines)

/-! ## Queries -/

/-- The struct `Queries`: the SQL statements used by the repository. -/
structure Queries where
  ListProducts : Str
  GetProduct : Str
  NextProductID : Str
  InsertProduct : Str
  UpdateProduct : Str
  DeleteProduct : Str
  deriving DecidableEq

/-- The variable `defaultQueries`. -/
def defaultQueries : Queries where
  ListProducts := "SELECT PRODUCT_ID, NAME, ATTRIBUTES_VARCHAR, ATTRIBUTES_CLOB, ATTRIBUTES_BLOB FROM PRODUCTS ORDER BY PRODUCT_ID".toList
  GetProduct := "SELECT NAME, ATTRIBUTES_VARCHAR, ATTRIBUTES_CLOB, ATTRIBUTES_BLOB FROM PRODUCTS WHERE PRODUCT_ID = :1".toList
  NextProductID := "SELECT NVL(MAX(PRODUCT_ID), 0) + 1 FROM PRODUCTS".toList
  InsertProduct := "INSERT INTO PRODUCTS (PRODUCT_ID, NAME, ATTRIBUTES_VARCHAR, ATTRIBUTES_CLOB, ATTRIBUTES_BLOB) VALUES (:1, :2, :3, :4, :5)".toList
  UpdateProduct := "UPDATE PRODUCTS SET NAME = :1, ATTRIBUTES_VARCHAR = :2, ATTRIBUTES_CLOB = :3, ATTRIBUTES_BLOB = :4 WHERE PRODUCT_ID = :5".toList
  DeleteProduct := "DELETE FROM PRODUCTS WHERE PRODUCT_ID = :1".toList

/-- The zero value `Queries{}`. -/
def Queries.zero : Queries := ⟨[], [], [], [], [], []⟩

/-- The second half of `loadQueries`: the defaults, each overridden by the value stored
under its key. -/
def applyOverrides (values : GoMap) : Queries :=
  let q := defaultQueries
  let q := match values "listproducts".toList with
    | some v => { q with ListProducts := v } | none => q
  let q := match values "getproduct".toList with
    | some v => { q with GetProduct := v } | none => q
  let q := match values "nextproductid".toList with
    | some v => { q with NextProductID := v } | none => q
  let q := match values "insertproduct".toList with
    | some v => { q with InsertProduct := v } | none => q
  let q := match values "updateproduct".toList with
    | some v => { q with UpdateProduct := v } | none => q
  let q := match values "deleteproduct".toList with
    | some v => { q with DeleteProduct := v } | none => q
  q

/-- The function `loadQueries`.  Where the Go function returns `Queries{}, err` the
result is the error. -/
def loadQueries (tbl : Char → Char) (fs : FS) (path : Str) : Except Err Queries :=
  match Open fs path with
  | .error e => .error e
  | .ok content =>
    match scanLines content with
    | .error e => .error e
    | .ok lines => .ok (applyOverrides (loadQueriesLoop tbl lines))

/-! ## The manager -/

/-- The struct `Manager`; `current` is what the atomic value holds. -/
structure Manager where
  path : Str
  current : Queries
  deriving DecidableEq

/-- The function `NewManager`. -/
def NewManager (path : Str) : Manager :=
  { path := path, current := defaultQueries }

/-- The method `Manager.Get`. -/
def Manager.Get (m : Manager) : Queries :=
  m.current

/-- The state of a running `Start`: the manager and the local variable `lastModTime`. -/
structure StartState where
  m : Manager
  lastModTime : Time
  deriving DecidableEq

/-- What one pass of `Start` finds: the file system at its call of `os.Stat`, and the file
system at the call of `os.Open` inside `loadQueries`, which comes later. -/
structure Snapshot where
  atStat : FS
  atOpen : FS

/-- A snapshot of a file system that does not change during the pass. -/
def Snapshot.still (fs : FS) : Snapshot :=
  { atStat := fs, atOpen := fs }

/-- Which branch a pass of the polling loop took. -/
inductive Event where
  | statFailed
  | notAfter
  | reloaded
  | reloadFailed
  deriving DecidableEq, Repr

/-- Whether the pass called `loadQueries`. -/
def Event.calledLoadQueries : Event → Bool
  | .reloaded => true
  | .reloadFailed => true
  | _ => false

/-- The initial load of `Start`, before the ticker is created. -/
def initialLoad (tbl : Char → Char) (m : Manager) (io : Snapshot) : StartState :=
  match Stat io.atStat m.path with
  | .ok modTime =>
    match loadQueries tbl io.atOpen m.path with
    | .ok q => { m := { m with current := q }, lastModTime := modTime }
    | .error _ => { m := m, lastModTime := 0 }
  | .error _ => { m := m, lastModTime := 0 }

/-- One pass of the polling loop of `Start`, taken at a tick. -/
def refreshCycle (tbl : Char → Char) (s : StartState) (io : Snapshot) : StartState × Event :=
  match Stat io.atStat s.m.path with
  | .error _ => (s, .statFailed)
  | .ok modTime =>
    if modTime > s.lastModTime then
      match loadQueries tbl io.atOpen s.m.path with
      | .ok q => ({ m := { s.m with current := q }, lastModTime := modTime }, .reloaded)
      | .error _ => (s, .reloadFailed)
    else (s, .notAfter)

/-- The passes of the polling loop for the ticks that come before `stop`. -/
def runCycles (tbl : Char → Char) (s : StartState) (ticks : List Snapshot) : StartState :=
  ticks.foldl (fun st io => (refreshCycle tbl st io).1) s

/-- The method `Manager.Start`: the initial load, then one pass per tick until `stop`. -/
def Manager.Start (tbl : Char → Char) (m : Manager) (init : Snapshot)
    (ticks : List Snapshot) : StartState :=
  runCycles tbl (initialLoad tbl m init) ticks

/-! ## The repository -/

/-- A Go `[]byte`, when it is not nil. -/
abbrev Bytes := List (Fin 256)

/-- The struct `model.Product`; a nil pointer and the nil slice are `none`. -/
structure Product where
  ProductID : Int
  Name : Str
  AttributesVarchar : Option Str
  AttributesClob : Option Str
  AttributesBlob : Option Bytes
  deriving DecidableEq

/-- A value of a column or of a bind parameter. -/
inductive Value where
  | null
  | int (n : Int)
  | text (s : Str)
  | blob (b : Bytes)
  deriving DecidableEq

/-- A row of the table PRODUCTS. -/
structure Row where
  id : Int
  name : Str
  attrV : Option Str
  attrC : Option Str
  attrB : Option Bytes
  deriving DecidableEq

/-- The store: the rows of the table PRODUCTS. -/
abbrev Store := List Row

/-- A nullable text as a value. -/
def optText : Option Str → Value
  | none => .null
  | some s => .text s

/-- A nullable byte string as a value. -/
def optBlob : Option Bytes → Value
  | none => .null
  | some b => .blob b

/-- A bind parameter for a nullable text column. -/
def asOptText : Value → Option (Option Str)
  | .null => some none
  | .text s => some (some s)
  | _ => none

/-- A bind parameter for a nullable binary column. -/
def asOptBlob : Value → Option (Option Bytes)
  | .null => some none
  | .blob b => some (some b)
  | _ => none

/-- The aggregate `MAX(PRODUCT_ID)`: null for the empty table. -/
def maxID : Store → Option Int
  | [] => none
  | r :: rs =>
    match maxID rs with
    | none => some r.id
    | some m => some (max r.id m)

/-- What the store answers to a query.  The store gives the six statements of
`defaultQueries` their SQL meaning and refuses every other text. -/
def Store.query (db : Store) (sql : Str) (args : List Value) : Except Err (List (List Value)) :=
  if sql = defaultQueries.ListProducts then
    match args with
    | [] => .ok ((db.insertionSort (fun a b => a.id ≤ b.id)).map (fun r =>
        [.int r.id, .text r.name, optText r.attrV, optText r.attrC, optBlob r.attrB]))
    | _ => .error .storage
  else if sql = defaultQueries.GetProduct then
    match args with
    | [.int id] => .ok ((db.filter (fun r => r.id = id)).map (fun r =>
        [.text r.name, optText r.attrV, optText r.attrC, optBlob r.attrB]))
    | _ => .error .storage
  else if sql = defaultQueries.NextProductID then
    match args with
    | [] => .ok [[.int ((maxID db).getD 0 + 1)]]
    | _ => .error .storage
  else .error .storage

/-- What the store does on a statement that writes: the new table and the number of rows
affected. -/
def Store.exec (db : Store) (sql : Str) (args : List Value) : Except Err (Store × Int) :=
  if sql = defaultQueries.InsertProduct then
    match args with
    | [.int id, .text name, v, c, b] =>
      match asOptText v, asOptText c, asOptBlob b with
      | some v, some c, some b => .ok (db ++ [⟨id, name, v, c, b⟩], 1)
      | _, _, _ => .error .storage
    | _ => .error .storage
  else if sql = defaultQueries.UpdateProduct then
    match args with
    | [.text name, v, c, b, .int id] =>
      match asOptText v, asOptText c, asOptBlob b with
      | some v, some c, some b =>
        .ok (db.map (fun r => if r.id = id then ⟨r.id, name, v, c, b⟩ else r),
          ((db.filter (fun r => r.id = id)).length : Int))
      | _, _, _ => .error .storage
    | _ => .error .storage
  else if sql = defaultQueries.DeleteProduct then
    match args with
    | [.int id] =>
      .ok (db.filter (fun r => r.id ≠ id), ((db.filter (fun r => r.id = id)).length : Int))
    | _ => .error .storage
  else .error .storage

/-- The failures the storage calls of one operation report.  Each operation makes each
kind of call at most once, but for `rows.Scan`, which `ListProducts` calls for every row:
`scan` is the index of the row at which it fails.  `rowsAffected` is the count that
`Result.RowsAffected` returns beside its error. -/
structure Faults where
  begin : Bool
  query : Bool
  scan : Option Nat
  rowsErr : Bool
  exec : Bool
  rowsAffected : Option Int
  commit : Bool
  deriving DecidableEq

/-- No storage call fails. -/
def noFaults : Faults :=
  { begin := false, query := false, scan := none, rowsErr := false, exec := false,
    rowsAffected := none, commit := false }

/-- The struct `sql.NullString`. -/
structure NullString where
  String : Str
  Valid : Bool
  deriving DecidableEq

/-- Whether a number fits the type `int64`. -/
def inInt64 (n : Int) : Bool :=
  -(2 ^ 63) ≤ n && n < 2 ^ 63

/-- The function `strconv.FormatInt(n, 10)`, by which `database/sql` turns an integer
into text. -/
def decimal (n : Int) : Str :=
  (toString n).toList

/-- The conversion `[]byte(s)`: the UTF-8 encoding of a string. -/
def encodeUTF8 (s : Str) : Bytes :=
  s.flatMap (fun c => (String.utf8EncodeChar c).map (fun u => (⟨u.toNat, u.toNat_lt⟩ : Fin 256)))

/-- One byte of the decoder: the text so far, the code point under construction and the
number of continuation bytes still due. -/
def decodeStep (st : Str × Nat × Nat) (b : Fin 256) : Str × Nat × Nat :=
  let out := st.1
  let acc := st.2.1
  let need := st.2.2
  let n := b.val
  if need = 0 then
    if n < 0x80 then (out ++ [Char.ofNat n], 0, 0)
    else if 0xC0 ≤ n ∧ n < 0xE0 then (out, n - 0xC0, 1)
    else if 0xE0 ≤ n ∧ n < 0xF0 then (out, n - 0xE0, 2)
    else if 0xF0 ≤ n ∧ n < 0xF8 then (out, n - 0xF0, 3)
    else (out ++ [Char.ofNat 0xFFFD], 0, 0)
  else if 0x80 ≤ n ∧ n < 0xC0 then
    if need = 1 then (out ++ [Char.ofNat (acc * 64 + (n - 0x80))], 0, 0)
    else (out, acc * 64 + (n - 0x80), need - 1)
  else (out ++ [Char.ofNat 0xFFFD], 0, 0)

/-- The conversion `string(b)`.  For bytes that are valid UTF-8 it is the text they
encode, which is the Go string with these bytes; other byte strings have no counterpart
among the strings of this model, and are read with U+FFFD where they are malformed. -/
def decodeUTF8 (b : Bytes) : Str :=
  let st := b.foldl decodeStep ([], 0, 0)
  if st.2.2 = 0 then st.1 else st.1 ++ [Char.ofNat 0xFFFD]

/-- The digits of `strconv.ParseInt`: a string of one or more of `0`..`9`, as a number. -/
def parseDigits (ds : Str) : Option Nat :=
  if ds = [] then none
  else if ds.all (fun c => decide (48 ≤ c.toNat ∧ c.toNat ≤ 57)) then
    some (ds.foldl (fun a c => 10 * a + (c.toNat - 48)) 0)
  else none

/-- The function `strconv.ParseInt(s, 10, 64)` before its check of the range: an optional
sign, then digits. -/
def ParseInt (s : Str) : Option Int :=
  match s with
  | '-' :: ds => (parseDigits ds).map (fun n => -(n : Int))
  | '+' :: ds => (parseDigits ds).map (fun n => (n : Int))
  | ds => (parseDigits ds).map (fun n => (n : Int))

/-- Scanning a column into an `int64`: `database/sql` takes an integer that fits, parses a
text or a byte slice with `strconv.ParseInt`, and refuses null. -/
def scanInt64 : Value → Except Err Int
  | .int n => if inInt64 n then .ok n else .error .storage
  | .text s =>
    match ParseInt s with
    | some n => if inInt64 n then .ok n else .error .storage
    | none => .error .storage
  | .blob b =>
    match ParseInt (decodeUTF8 b) with
    | some n => if inInt64 n then .ok n else .error .storage
    | none => .error .storage
  | .null => .error .storage

/-- Scanning a column into a `string`: `database/sql` takes text as it is, formats an
integer, reads a byte slice as a string, and refuses null. -/
def scanString : Value → Except Err Str
  | .text s => .ok s
  | .int n => .ok (decimal n)
  | .blob b => .ok (decodeUTF8 b)
  | .null => .error .storage

/-- Scanning a column into a `sql.NullString`: not valid for null, and otherwise valid
with the column converted as for a `string`. -/
def scanNullString : Value → Except Err NullString
  | .null => .ok ⟨[], false⟩
  | .text s => .ok ⟨s, true⟩
  | .int n => .ok ⟨decimal n, true⟩
  | .blob b => .ok ⟨decodeUTF8 b, true⟩

/-- Scanning a column into a `[]byte`: nil for null, a copy of a byte slice (`.blob b` is
a slice that the driver delivers non-nil, empty or not), the bytes of a text, and the
bytes of the decimal digits of an integer. -/
def scanBytes : Value → Except Err (Option Bytes)
  | .null => .ok none
  | .blob b => .ok (some b)
  | .text s => .ok (some (encodeUTF8 s))
  | .int n => .ok (some (encodeUTF8 (decimal n)))

/-- The struct `ProductRepo`; the store is passed to each operation. -/
structure ProductRepo where
  Q : Manager

/-- The lines of `ListProducts` and `GetProduct` that follow a scan: the product built
from the scanned variables. -/
def buildProduct (id : Int) (name : Str) (attrV attrC : NullString) (attrB : Option Bytes) :
    Product :=
  let p : Product := { ProductID := id, Name := name, AttributesVarchar := none,
                       AttributesClob := none, AttributesBlob := attrB }
  let p := if attrV.Valid then { p with AttributesVarchar := some attrV.String } else p
  let p := if attrC.Valid then { p with AttributesClob := some attrC.String } else p
  p

/-- The call `rows.Scan(&id, &name, &attrV, &attrC, &attrB)` of `ListProducts` and the
lines up to the `append`. -/
def scanListRow (f : Faults) (i : Nat) (cols : List Value) : Except Err Product :=
  if f.scan = some i then .error .storage
  else
    match cols with
    | [c0, c1, c2, c3, c4] =>
      match scanInt64 c0, scanString c1, scanNullString c2, scanNullString c3, scanBytes c4 with
      | .ok id, .ok name, .ok attrV, .ok attrC, .ok attrB =>
        .ok (buildProduct id name attrV attrC attrB)
      | _, _, _, _, _ => .error .storage
    | _ => .error .storage

/-- The loop `for rows.Next()` of `ListProducts`, from row `i` on. -/
def listLoop (f : Faults) : Nat → List (List Value) → List Product → Except Err (List Product)
  | _, [], items => .ok items
  | i, cols :: rest, items =>
    match scanListRow f i cols with
    | .error e => .error e
    | .ok p => listLoop f (i + 1) rest (items ++ [p])

/-- The method `ProductRepo.ListProducts`. -/
def ProductRepo.ListProducts (r : ProductRepo) (f : Faults) (db : Store) :
    Except Err (List Product) :=
  if f.query then .error .storage
  else
    match db.query r.Q.Get.ListProducts [] with
    | .error e => .error e
    | .ok rows =>
      match listLoop f 0 rows [] with
      | .error e => .error e
      | .ok items => if f.rowsErr then .error .storage else .ok items

/-- The method `ProductRepo.GetProduct`; `QueryRow(...).Scan` reports the failure of the
query, `sql.ErrNoRows` for an empty answer, and the failure of the scan. -/
def ProductRepo.GetProduct (r : ProductRepo) (f : Faults) (db : Store) (id : Int) :
    Except Err Product :=
  if f.query then .error .storage
  else
    match db.query r.Q.Get.GetProduct [.int id] with
    | .error e => .error e
    | .ok [] => .error .noRows
    | .ok (cols :: _) =>
      if f.scan = some 0 then .error .storage
      else
        match cols with
        | [c1, c2, c3, c4] =>
          match scanString c1, scanNullString c2, scanNullString c3, scanBytes c4 with
          | .ok name, .ok attrV, .ok attrC, .ok attrB =>
            .ok (buildProduct id name attrV attrC attrB)
          | _, _, _, _ => .error .storage
        | _ => .error .storage

/-- The method `ProductRepo.nextProductID`, on the table as the transaction sees it. -/
def ProductRepo.nextProductID (r : ProductRepo) (f : Faults) (tx : Store) : Except Err Int :=
  if f.query then .error .storage
  else
    match tx.query r.Q.Get.NextProductID [] with
    | .error e => .error e
    | .ok [] => .error .noRows
    | .ok (cols :: _) =>
      if f.scan = some 0 then .error .storage
      else
        match cols with
        | [c0] => scanInt64 c0
        | _ => .error .storage

/-- The method `ProductRepo.CreateProduct`: the result and the store it leaves.  The
transaction works on its own copy of the table, which `Commit` makes the table; on every
other path the deferred `Rollback` drops the copy.  A `Commit` that reports a failure is
taken not to have been applied; the source does nothing more after it. -/
def ProductRepo.CreateProduct (r : ProductRepo) (f : Faults) (db : Store) (inp : Product) :
    Except Err Product × Store :=
  if f.begin then (.error .storage, db)
  else
    match r.nextProductID f db with
    | .error e => (.error e, db)
    | .ok id =>
      if f.exec then (.error .storage, db)
      else
        match db.exec r.Q.Get.InsertProduct
            [.int id, .text inp.Name, optText inp.AttributesVarchar,
              optText inp.AttributesClob, optBlob inp.AttributesBlob] with
        | .error e => (.error e, db)
        | .ok (tx, _) =>
          if f.commit then (.error .storage, db)
          else (.ok { inp with ProductID := id }, tx)

/-- The lines `n, _ := res.RowsAffected(); return n > 0, nil`. -/
def rowsAffectedPositive (f : Faults) (count : Int) : Bool :=
  match f.rowsAffected with
  | none => decide (count > 0)
  | some n => decide (n > 0)

/-- The method `ProductRepo.UpdateProduct`: the result and the store it leaves. -/
def ProductRepo.UpdateProduct (r : ProductRepo) (f : Faults) (db : Store) (id : Int)
    (inp : Product) : Except Err Bool × Store :=
  if f.exec then (.error .storage, db)
  else
    match db.exec r.Q.Get.UpdateProduct
        [.text inp.Name, optText inp.AttributesVarchar, optText inp.AttributesClob,
          optBlob inp.AttributesBlob, .int id] with
    | .error e => (.error e, db)
    | .ok (db', count) => (.ok (rowsAffectedPositive f count), db')

/-- The method `ProductRepo.DeleteProduct`: the result and the store it leaves. -/
def ProductRepo.DeleteProduct (r : ProductRepo) (f : Faults) (db : Store) (id : Int) :
    Except Err Bool × Store :=
  if f.exec then (.error .storage, db)
  else
    match db.exec r.Q.Get.DeleteProduct [.int id] with
    | .error e => (.error e, db)
    | .ok (db', count) => (.ok (rowsAffectedPositive f count), db')

/-- The function `NewProductRepo`. -/
def NewProductRepo (q : Manager) : ProductRepo :=
  { Q := q }

/-- A candidate product with a name and no attributes. -/
def named (name : Str) : Product :=
  { ProductID := 0, Name := name, AttributesVarchar := none, AttributesClob := none,
    AttributesBlob := none }

/-- A file system with one readable file. -/
def oneFile (path : Str) (t : Time) (content : Str) : FS :=
  fun p => if p = path then some ⟨t, true, content⟩ else none



/-! ## Words of the specification -/

/-- A line that is empty after trimming. -/
def isBlank (text : Str) : Bool :=
  TrimSpace text = []

/-- A line whose trimmed text starts with `#` or `;`. -/
def isComment (text : Str) : Bool :=
  (TrimSpace text).head? == some '#' || (TrimSpace text).head? == some ';'

/-- The entries of the lines that are kept, in the order of the lines. -/
def entries (lines : List Str) : List (Str × Str) :=
  lines.filterMap parseLine

/-- The value of the last entry whose key, normalised by `norm`, is `key`. -/
def lastValue (norm : Str → Str) (key : Str) (es : List (Str × Str)) : Option Str :=
  ((es.filter (fun e => norm e.1 = key)).getLast?).map Prod.snd

/-- The six keys that `loadQueries` looks up. -/
def recognizedKeys : List Str :=
  ["listproducts".toList, "getproduct".toList, "nextproductid".toList,
   "insertproduct".toList, "updateproduct".toList, "deleteproduct".toList]

/-- Both scanning loops at once: the key is passed through `norm` before the assignment. -/
def stepWith (norm : Str → Str) (m : GoMap) (text : Str) : GoMap :=
  match parseLine text with
  | none => m
  | some (key, val) => m.set (norm key) val

/-! ## Sample inputs -/

/-- The path of the properties file in the samples. -/
def samplePath : Str := "queries.properties".toList

/-- A properties text with one recognized key, in mixed case, and one other key. -/
def sampleContent : Str := "# queries\nListProducts = X\nfoo=1".toList

/-- A properties text whose second line is longer than the scanner takes. -/
def longContent : Str := "listproducts=X".toList ++ '\n' :: List.replicate 70000 'a'

/-- A file system whose properties file may not be read. -/
def lockedFS : FS :=
  fun p => if p = samplePath then some ⟨5, false, sampleContent⟩ else none

/-- A file system without the properties file. -/
def emptyFS : FS := fun _ => none

/-- The failure of `Result.RowsAffected` alone, with the count 0 beside the error. -/
def countFails : Faults :=
  { noFaults with rowsAffected := some 0 }

/-- The product that stands for a row: each nullable column as the optional field. -/
def productOfRow (row : Row) : Product :=
  { ProductID := row.id, Name := row.name, AttributesVarchar := row.attrV,
    AttributesClob := row.attrC, AttributesBlob := row.attrB }

/-- A table of two rows: in the first the short text and the binary column are empty and
not null and the long text is null; in the second only the long text is not null. -/
def sampleRows : Store :=
  [⟨2, "b".toList, none, some "x".toList, none⟩, ⟨1, "a".toList, some [], none, some []⟩]

/-! ## Lemmas on strings -/

theorem dropWhile_append_stop (p : Char → Bool) (a : Str) (b : Char) (c : Str)
    (hb : p b = false) :
    List.dropWhile p (a ++ b :: c) = List.dropWhile p a ++ b :: c := by
  induction a with
  | nil => simp [List.dropWhile_cons, hb]
  | cons x xs ih =>
    simp only [List.cons_append, List.dropWhile_cons]
    split
    · exact ih
    · rfl

theorem rdropWhile_append_stop (p : Char → Bool) (a : Str) (b : Char) (c : Str)
    (hb : p b = false) :
    List.rdropWhile p (a ++ b :: c) = a ++ b :: List.rdropWhile p c := by
  unfold List.rdropWhile
  have h : (a ++ b :: c).reverse = c.reverse ++ b :: a.reverse := by simp
  rw [h, dropWhile_append_stop p _ _ _ hb]
  simp

theorem all_or_split (p : Char → Bool) (v : Str) :
    (∀ x ∈ v, p x = true) ∨
      ∃ a x c, v = a ++ x :: c ∧ (∀ y ∈ a, p y = true) ∧ p x = false := by
  induction v with
  | nil => left; simp
  | cons y ys ih =>
    cases hy : p y with
    | false => right; exact ⟨[], y, ys, rfl, by simp, hy⟩
    | true =>
      rcases ih with h | ⟨a, x, c, h1, h2, h3⟩
      · left
        intro z hz
        rcases List.mem_cons.1 hz with rfl | hz
        · exact hy
        · exact h z hz
      · right
        refine ⟨y :: a, x, c, by simp [h1], ?_, h3⟩
        intro z hz
        rcases List.mem_cons.1 hz with rfl | hz
        · exact hy
        · exact h2 z hz

theorem dropWhile_all (p : Char → Bool) (a : Str) (h : ∀ y ∈ a, p y = true) :
    List.dropWhile p a = [] := by
  induction a with
  | nil => rfl
  | cons x xs ih =>
    have hx : p x = true := h x (List.mem_cons_self _ _)
    simp only [List.dropWhile_cons, hx, if_true]
    exact ih (fun y hy => h y (List.mem_cons_of_mem _ hy))

theorem dropWhile_rdropWhile_comm (p : Char → Bool) (v : Str) :
    List.dropWhile p (List.rdropWhile p v) = List.rdropWhile p (List.dropWhile p v) := by
  rcases all_or_split p v with h | ⟨a, x, c, rfl, h2, h3⟩
  · have h1 : List.rdropWhile p v = [] := List.rdropWhile_eq_nil_iff.2 (by simpa using h)
    rw [h1, dropWhile_all p v h]
    simp
  · rw [rdropWhile_append_stop p a x c h3, dropWhile_append_stop p a x _ h3,
      dropWhile_append_stop p a x c h3, dropWhile_all p a h2]
    simpa using (rdropWhile_append_stop p [] x c h3).symm

theorem TrimSpace_dropWhile (k : Str) : TrimSpace (List.dropWhile isSpace k) = TrimSpace k := by
  unfold TrimSpace
  rw [List.dropWhile_idempotent]

theorem TrimSpace_rdropWhile (v : Str) :
    TrimSpace (List.rdropWhile isSpace v) = TrimSpace v := by
  unfold TrimSpace
  rw [dropWhile_rdropWhile_comm, List.rdropWhile_idempotent]

theorem TrimSpace_around (k : Str) (sep : Char) (v : Str) (hsep : isSpace sep = false) :
    TrimSpace (k ++ sep :: v)
      = List.dropWhile isSpace k ++ sep :: List.rdropWhile isSpace v := by
  unfold TrimSpace
  rw [dropWhile_append_stop isSpace k sep v hsep, rdropWhile_append_stop isSpace _ sep v hsep]

theorem mem_of_mem_dropWhile (p : Char → Bool) (x : Char) (l : Str)
    (h : x ∈ List.dropWhile p l) : x ∈ l :=
  (List.dropWhile_suffix p).subset h

theorem mem_of_mem_rdropWhile (p : Char → Bool) (x : Char) (l : Str)
    (h : x ∈ List.rdropWhile p l) : x ∈ l :=
  (List.rdropWhile_prefix p l).subset h

theorem mem_of_mem_TrimSpace (x : Char) (l : Str) (h : x ∈ TrimSpace l) : x ∈ l :=
  mem_of_mem_dropWhile _ _ _ (mem_of_mem_rdropWhile _ _ _ h)

theorem SplitN2_at (sep : Char) (k v : Str) (hk : sep ∉ k) :
    SplitN2 (k ++ sep :: v) sep = [k, v] := by
  have hall : ∀ a ∈ k, (a != sep) = true := by
    intro a ha
    simp only [bne_iff_ne, ne_eq]
    rintro rfl
    exact hk ha
  unfold SplitN2
  rw [List.dropWhile_append_of_pos hall, List.takeWhile_append_of_pos hall]
  simp

theorem SplitN2_none (sep : Char) (s : Str) (hs : sep ∉ s) : SplitN2 s sep = [s] := by
  have hall : ∀ a ∈ s, (a != sep) = true := by
    intro a ha
    simp only [bne_iff_ne, ne_eq]
    rintro rfl
    exact hs ha
  unfold SplitN2
  have h : List.dropWhile (fun c => c != sep) (s ++ []) = List.dropWhile (fun c => c != sep) [] :=
    List.dropWhile_append_of_pos hall
  simp only [List.append_nil, List.dropWhile_nil] at h
  rw [h]

theorem HasPrefix_one (line : Str) (c : Char) : HasPrefix line [c] = (line.head? == some c) := by
  cases line with
  | nil => simp [HasPrefix, List.isPrefixOf]
  | cons x xs =>
    simp [HasPrefix, List.isPrefixOf]
    exact eq_comm

/-! ## Lemmas on the loop body -/

theorem parseLine_of_trim (text line : Str) (sep : Char) (hl : TrimSpace text = line)
    (hne : line ≠ []) (hc : isComment text = false)
    (hsep : (if !Contains line '=' && Contains line ':' then ':' else '=') = sep) :
    parseLine text =
      match SplitN2 line sep with
      | [k, v] => some (TrimSpace k, TrimSpace v)
      | _ => none := by
  unfold isComment at hc
  rw [hl, Bool.or_eq_false_iff] at hc
  unfold parseLine
  simp only [hl, HasPrefix_one, hc.1, hc.2, hsep, decide_eq_false hne, Bool.or_false]
  simp

theorem parseLine_skip (text : Str) (h : isBlank text = true ∨ isComment text = true) :
    parseLine text = none := by
  unfold parseLine
  rcases h with h | h
  · unfold isBlank at h
    simp [of_decide_eq_true h]
  · unfold isComment at h
    simp only [HasPrefix_one]
    rcases Bool.or_eq_true_iff.1 h with h | h <;> simp [h]

theorem parseLine_eq (k v : Str) (hk : '=' ∉ k) (hc : isComment (k ++ '=' :: v) = false) :
    parseLine (k ++ '=' :: v) = some (TrimSpace k, TrimSpace v) := by
  have hl := TrimSpace_around k '=' v (by decide)
  have hk2 : '=' ∉ List.dropWhile isSpace k := fun h => hk (mem_of_mem_dropWhile _ _ _ h)
  rw [parseLine_of_trim _ _ '=' hl (by simp) hc (by simp [Contains]),
    SplitN2_at '=' _ _ hk2]
  simp [TrimSpace_dropWhile, TrimSpace_rdropWhile]

theorem parseLine_colon (k v : Str) (hk : ':' ∉ k) (he : '=' ∉ k ++ ':' :: v)
    (hc : isComment (k ++ ':' :: v) = false) :
    parseLine (k ++ ':' :: v) = some (TrimSpace k, TrimSpace v) := by
  have hl := TrimSpace_around k ':' v (by decide)
  have hk2 : ':' ∉ List.dropWhile isSpace k := fun h => hk (mem_of_mem_dropWhile _ _ _ h)
  have he2 : '=' ∉ TrimSpace (k ++ ':' :: v) := fun h => he (mem_of_mem_TrimSpace _ _ h)
  rw [hl] at he2
  have hcont : Contains (List.dropWhile isSpace k ++ ':' :: List.rdropWhile isSpace v) '='
      = false := by
    simpa [Contains] using he2
  rw [parseLine_of_trim _ _ ':' hl (by simp) hc (by rw [hcont]; simp [Contains]),
    SplitN2_at ':' _ _ hk2]
  simp [TrimSpace_dropWhile, TrimSpace_rdropWhile]

theorem parseLine_nosep (text : Str) (h1 : '=' ∉ text) (h2 : ':' ∉ text) :
    parseLine text = none := by
  have h1t : '=' ∉ TrimSpace text := fun h => h1 (mem_of_mem_TrimSpace _ _ h)
  have h2t : ':' ∉ TrimSpace text := fun h => h2 (mem_of_mem_TrimSpace _ _ h)
  by_cases hb : isBlank text = true
  · exact parseLine_skip text (Or.inl hb)
  by_cases hc : isComment text = true
  · exact parseLine_skip text (Or.inr hc)
  have hne : TrimSpace text ≠ [] := by
    intro h
    exact hb (by simp [isBlank, h])
  rw [parseLine_of_trim text _ '=' rfl hne (by simpa using hc) (by simp [Contains, h2t]),
    SplitN2_none '=' _ h1t]

/-! ## Lemmas on the scanning loops -/

theorem readPropertiesStep_eq : readPropertiesStep = stepWith id := rfl

theorem loadQueriesStep_eq (tbl : Char → Char) : loadQueriesStep tbl = stepWith (ToLower tbl) :=
  rfl

theorem lastValue_nil (norm : Str → Str) (key : Str) : lastValue norm key [] = none := rfl

theorem lastValue_cons (norm : Str → Str) (key : Str) (e : Str × Str) (es : List (Str × Str)) :
    lastValue norm key (e :: es)
      = (lastValue norm key es).or (if norm e.1 = key then some e.2 else none) := by
  unfold lastValue
  by_cases h : norm e.1 = key
  · simp only [List.filter_cons, h, decide_True, if_true]
    rw [List.getLast?_cons]
    cases List.getLast? (List.filter (fun e => decide (norm e.1 = key)) es) <;> simp
  · simp only [List.filter_cons, h, decide_False, if_false]
    simp

theorem lastValue_eq_none (norm : Str → Str) (key : Str) (es : List (Str × Str)) :
    lastValue norm key es = none ↔ ∀ e ∈ es, norm e.1 ≠ key := by
  unfold lastValue
  simp [List.filter_eq_nil_iff]

theorem foldl_stepWith (norm : Str → Str) (lines : List Str) (acc : GoMap) (key : Str) :
    lines.foldl (stepWith norm) acc key = (lastValue norm key (entries lines)).or (acc key) := by
  induction lines generalizing acc with
  | nil => simp [entries, lastValue_nil]
  | cons l ls ih =>
    rw [List.foldl_cons, ih]
    unfold entries stepWith
    cases hp : parseLine l with
    | none => simp [List.filterMap_cons, hp]
    | some e =>
      obtain ⟨k, v⟩ := e
      simp only [List.filterMap_cons, hp]
      have hc := lastValue_cons norm key (k, v) (List.filterMap parseLine ls)
      unfold entries at ih
      rw [hc, Option.or_assoc]
      congr 1
      by_cases h : norm k = key
      · simp [GoMap.set, h]
      · have h2 : ¬ key = norm k := fun x => h x.symm
        simp [GoMap.set, h, h2]

theorem foldl_stepWith_congr (norm : Str → Str) (lines : List Str) (m1 m2 : GoMap) (key : Str)
    (h : m1 key = m2 key) :
    lines.foldl (stepWith norm) m1 key = lines.foldl (stepWith norm) m2 key := by
  rw [foldl_stepWith, foldl_stepWith, h]

theorem foldl_stepWith_skip (norm : Str → Str) (pre post : List Str) (text : Str) (acc : GoMap)
    (h : parseLine text = none) :
    (pre ++ text :: post).foldl (stepWith norm) acc = (pre ++ post).foldl (stepWith norm) acc := by
  rw [List.foldl_append, List.foldl_append, List.foldl_cons]
  congr 1
  simp [stepWith, h]

theorem foldl_stepWith_other (norm : Str → Str) (pre post : List Str) (text : Str) (acc : GoMap)
    (key : Str) (h : ∀ k v, parseLine text = some (k, v) → norm k ≠ key) :
    (pre ++ text :: post).foldl (stepWith norm) acc key
      = (pre ++ post).foldl (stepWith norm) acc key := by
  rw [List.foldl_append, List.foldl_append, List.foldl_cons]
  apply foldl_stepWith_congr
  unfold stepWith
  cases hp : parseLine text with
  | none => rfl
  | some e =>
    obtain ⟨k, v⟩ := e
    have h2 : ¬ key = norm k := fun x => h k v hp x.symm
    simp [GoMap.set, h2]

theorem foldl_stepWith_kept (norm : Str → Str) (pre post : List Str) (text : Str) (acc : GoMap)
    (k v : Str) (hp : parseLine text = some (k, v))
    (hpost : ∀ l ∈ post, ∀ k2 v2, parseLine l = some (k2, v2) → norm k2 ≠ norm k) :
    (pre ++ text :: post).foldl (stepWith norm) acc (norm k) = some v := by
  rw [List.foldl_append, List.foldl_cons, foldl_stepWith]
  have h1 : lastValue norm (norm k) (entries post) = none := by
    rw [lastValue_eq_none]
    intro e he
    unfold entries at he
    obtain ⟨l, hl, hle⟩ := List.mem_filterMap.1 he
    exact hpost l hl e.1 e.2 hle
  rw [h1]
  simp [stepWith, hp, GoMap.set]

/-! ## Lemmas on the scanner -/

theorem splitLF_append_lf (l rest : Str) (hl : '\n' ∉ l) :
    splitLF (l ++ '\n' :: rest) = l :: splitLF rest := by
  induction l with
  | nil => simp [splitLF]
  | cons c cs ih =>
    have hc : c ≠ '\n' := fun h => hl (by simp [h])
    have hcs : '\n' ∉ cs := fun h => hl (List.mem_cons_of_mem _ h)
    have h := ih hcs
    simp only [List.cons_append, splitLF, hc, if_false]
    rw [show cs.append ('\n' :: rest) = cs ++ '\n' :: rest from rfl, h]

theorem splitLF_noLF (s : Str) (hs : '\n' ∉ s) (hne : s ≠ []) : splitLF s = [s] := by
  induction s with
  | nil => exact absurd rfl hne
  | cons c cs ih =>
    have hc : c ≠ '\n' := fun h => hs (by simp [h])
    have hcs : '\n' ∉ cs := fun h => hs (List.mem_cons_of_mem _ h)
    cases cs with
    | nil => simp [splitLF, hc]
    | cons d ds =>
      have := ih hcs (by simp)
      simp only [splitLF, hc, if_false] at this ⊢
      rw [this]

theorem byteLen_replicate (n : Nat) : byteLen (List.replicate n 'a') = n := by
  induction n with
  | zero => rfl
  | succ n ih =>
    unfold byteLen at ih ⊢
    rw [List.replicate_succ, List.map_cons, List.sum_cons, ih]
    have : Char.utf8Size 'a' = 1 := by decide
    omega

theorem scanLines_ok_iff (content : Str) (lines : List Str) :
    scanLines content = .ok lines ↔
      (∀ l ∈ splitLF content, byteLen l < MaxScanTokenSize) ∧
        lines = (splitLF content).map dropCR := by
  unfold scanLines
  by_cases h : ∀ l ∈ splitLF content, byteLen l < MaxScanTokenSize
  · have h2 : (splitLF content).all (fun l => decide (byteLen l < MaxScanTokenSize)) = true := by
      simpa using h
    simp only [h2, if_true]
    constructor
    · intro he
      injection he with he
      exact ⟨h, he.symm⟩
    · rintro ⟨_, rfl⟩
      rfl
  · have h2 : ¬ (splitLF content).all (fun l => decide (byteLen l < MaxScanTokenSize)) = true := by
      simpa using h
    simp only [h2, if_false]
    constructor
    · intro he
      cases he
    · rintro ⟨h3, _⟩
      exact absurd h3 h

theorem scanLines_long (pre : Str) (n : Nat) (hpre : '\n' ∉ pre) (hn : MaxScanTokenSize ≤ n) :
    scanLines (pre ++ '\n' :: List.replicate n 'a') = .error .tooLong := by
  have hpos : 0 < n := Nat.lt_of_lt_of_le (by decide) hn
  have hnl : '\n' ∉ List.replicate n 'a' := by
    intro h
    have := (List.mem_replicate.1 h).2
    exact absurd this (by decide)
  have hne : List.replicate n 'a' ≠ [] := by
    intro h
    have := congrArg List.length h
    simp at this
    omega
  have hbad : ¬ ∀ l ∈ splitLF (pre ++ '\n' :: List.replicate n 'a'),
      byteLen l < MaxScanTokenSize := by
    intro h
    have := h (List.replicate n 'a') (by
      rw [splitLF_append_lf pre _ hpre, splitLF_noLF _ hnl hne]
      simp)
    rw [byteLen_replicate] at this
    omega
  unfold scanLines
  have h2 : ¬ (splitLF (pre ++ '\n' :: List.replicate n 'a')).all
      (fun l => decide (byteLen l < MaxScanTokenSize)) = true := by
    simpa using hbad
  simp [h2]

/-! ## Lemmas on the overrides -/

theorem applyOverrides_eq (values : GoMap) :
    applyOverrides values =
      { ListProducts := (values "listproducts".toList).getD defaultQueries.ListProducts,
        GetProduct := (values "getproduct".toList).getD defaultQueries.GetProduct,
        NextProductID := (values "nextproductid".toList).getD defaultQueries.NextProductID,
        InsertProduct := (values "insertproduct".toList).getD defaultQueries.InsertProduct,
        UpdateProduct := (values "updateproduct".toList).getD defaultQueries.UpdateProduct,
        DeleteProduct := (values "deleteproduct".toList).getD defaultQueries.DeleteProduct } := by
  unfold applyOverrides
  cases values "listproducts".toList <;> cases values "getproduct".toList <;>
    cases values "nextproductid".toList <;> cases values "insertproduct".toList <;>
    cases values "updateproduct".toList <;> cases values "deleteproduct".toList <;> rfl

theorem applyOverrides_congr (m1 m2 : GoMap) (h : ∀ key ∈ recognizedKeys, m1 key = m2 key) :
    applyOverrides m1 = applyOverrides m2 := by
  rw [applyOverrides_eq, applyOverrides_eq]
  rw [h "listproducts".toList (by simp [recognizedKeys]),
    h "getproduct".toList (by simp [recognizedKeys]),
    h "nextproductid".toList (by simp [recognizedKeys]),
    h "insertproduct".toList (by simp [recognizedKeys]),
    h "updateproduct".toList (by simp [recognizedKeys]),
    h "deleteproduct".toList (by simp [recognizedKeys])]

/-! ## Lemmas on `loadQueries` and the polling loop -/

theorem Open_oneFile (path : Str) (t : Time) (content : Str) :
    Open (oneFile path t content) path = .ok content := by
  simp [Open, oneFile]

theorem loadQueries_ok (tbl : Char → Char) (fs : FS) (path content : Str) (lines : List Str)
    (hopen : Open fs path = .ok content) (hscan : scanLines content = .ok lines) :
    loadQueries tbl fs path = .ok (applyOverrides (loadQueriesLoop tbl lines)) := by
  simp [loadQueries, hopen, hscan]

theorem loadQueriesLoop_lookup (tbl : Char → Char) (lines : List Str) (key : Str) :
    loadQueriesLoop tbl lines key = lastValue (ToLower tbl) key (entries lines) := by
  unfold loadQueriesLoop
  rw [loadQueriesStep_eq, foldl_stepWith]
  simp [GoMap.empty, Option.or_none]

theorem readPropertiesLoop_lookup (lines : List Str) (key : Str) :
    readPropertiesLoop lines key = lastValue id key (entries lines) := by
  unfold readPropertiesLoop
  rw [readPropertiesStep_eq, foldl_stepWith]
  simp [GoMap.empty, Option.or_none]

theorem refreshCycle_absent (tbl : Char → Char) (s : StartState) (io : Snapshot)
    (h : io.atStat s.m.path = none) : refreshCycle tbl s io = (s, .statFailed) := by
  simp [refreshCycle, Stat, h]

theorem runCycles_absent (tbl : Char → Char) (ticks : List Snapshot) (s : StartState)
    (h : ∀ io ∈ ticks, io.atStat s.m.path = none) : runCycles tbl s ticks = s := by
  induction ticks with
  | nil => rfl
  | cons io rest ih =>
    unfold runCycles at ih ⊢
    rw [List.foldl_cons, refreshCycle_absent tbl s io (h io (List.mem_cons_self _ _))]
    exact ih (fun io2 h2 => h io2 (List.mem_cons_of_mem _ h2))

theorem loadQueries_long (tbl : Char → Char) (path : Str) (t : Time) (pre : Str) (n : Nat)
    (hpre : '\n' ∉ pre) (hn : MaxScanTokenSize ≤ n) :
    loadQueries tbl (oneFile path t (pre ++ '\n' :: List.replicate n 'a')) path
      = .error .tooLong := by
  simp [loadQueries, Open_oneFile, scanLines_long pre n hpre hn]

theorem refreshCycle_cases (tbl : Char → Char) (s : StartState) (io : Snapshot) :
    (refreshCycle tbl s io).1 = s ∨
      ∃ q t, loadQueries tbl io.atOpen s.m.path = .ok q ∧
        (refreshCycle tbl s io).1 = ⟨{ s.m with current := q }, t⟩ := by
  unfold refreshCycle
  cases Stat io.atStat s.m.path with
  | error e => left; rfl
  | ok t =>
    by_cases ht : t > s.lastModTime
    · cases hq : loadQueries tbl io.atOpen s.m.path with
      | error e => left; simp [ht]
      | ok q => right; exact ⟨q, t, rfl, by simp [ht]⟩
    · left; simp [ht]

theorem initialLoad_cases (tbl : Char → Char) (m : Manager) (io : Snapshot) :
    initialLoad tbl m io = ⟨m, 0⟩ ∨
      ∃ q t, loadQueries tbl io.atOpen m.path = .ok q ∧
        initialLoad tbl m io = ⟨{ m with current := q }, t⟩ := by
  unfold initialLoad
  cases Stat io.atStat m.path with
  | error e => left; rfl
  | ok t =>
    cases hq : loadQueries tbl io.atOpen m.path with
    | error e => left; rfl
    | ok q => right; exact ⟨q, t, rfl, rfl⟩

theorem runCycles_cons (tbl : Char → Char) (s : StartState) (io : Snapshot)
    (rest : List Snapshot) :
    runCycles tbl s (io :: rest) = runCycles tbl (refreshCycle tbl s io).1 rest := rfl

theorem runCycles_snapshot (tbl : Char → Char) (ticks : List Snapshot) (s : StartState) :
    (runCycles tbl s ticks).m.path = s.m.path ∧
      ((runCycles tbl s ticks).m.current = s.m.current ∨
        ∃ io ∈ ticks, loadQueries tbl io.atOpen s.m.path
          = .ok (runCycles tbl s ticks).m.current) := by
  induction ticks generalizing s with
  | nil => exact ⟨rfl, Or.inl rfl⟩
  | cons io rest ih =>
    rw [runCycles_cons]
    obtain ⟨hp, hc⟩ := ih (refreshCycle tbl s io).1
    rcases refreshCycle_cases tbl s io with h | ⟨q, t, hq, h⟩
    · rw [h] at hp hc ⊢
      refine ⟨hp, ?_⟩
      rcases hc with hc | ⟨io2, hio2, hl⟩
      · exact Or.inl hc
      · exact Or.inr ⟨io2, List.mem_cons_of_mem _ hio2, hl⟩
    · rw [h] at hp hc ⊢
      refine ⟨hp, Or.inr ?_⟩
      rcases hc with hc | ⟨io2, hio2, hl⟩
      · exact ⟨io, List.mem_cons_self _ _, by rw [hc]; exact hq⟩
      · exact ⟨io2, List.mem_cons_of_mem _ hio2, hl⟩

/-! ## Lemmas on the store -/

theorem asOptText_optText (v : Option Str) : asOptText (optText v) = some v := by
  cases v <;> rfl

theorem asOptBlob_optBlob (b : Option Bytes) : asOptBlob (optBlob b) = some b := by
  cases b <;> rfl

theorem query_nextProductID (db : Store) :
    db.query defaultQueries.NextProductID [] = .ok [[.int ((maxID db).getD 0 + 1)]] := by
  have h1 : defaultQueries.NextProductID ≠ defaultQueries.ListProducts := by decide
  have h2 : defaultQueries.NextProductID ≠ defaultQueries.GetProduct := by decide
  simp [Store.query, h1, h2]

theorem exec_insert (db : Store) (id : Int) (name : Str) (v c : Option Str)
    (b : Option Bytes) :
    db.exec defaultQueries.InsertProduct [.int id, .text name, optText v, optText c, optBlob b]
      = .ok (db ++ [⟨id, name, v, c, b⟩], 1) := by
  simp [Store.exec, asOptText_optText, asOptBlob_optBlob]

theorem exec_update (db : Store) (id : Int) (name : Str) (v c : Option Str)
    (b : Option Bytes) :
    db.exec defaultQueries.UpdateProduct [.text name, optText v, optText c, optBlob b, .int id]
      = .ok (db.map (fun r => if r.id = id then ⟨r.id, name, v, c, b⟩ else r),
          ((db.filter (fun r => r.id = id)).length : Int)) := by
  have h1 : defaultQueries.UpdateProduct ≠ defaultQueries.InsertProduct := by decide
  simp [Store.exec, h1, asOptText_optText, asOptBlob_optBlob]

theorem exec_delete (db : Store) (id : Int) :
    db.exec defaultQueries.DeleteProduct [.int id]
      = .ok (db.filter (fun r => r.id ≠ id), ((db.filter (fun r => r.id = id)).length : Int)) := by
  have h1 : defaultQueries.DeleteProduct ≠ defaultQueries.InsertProduct := by decide
  have h2 : defaultQueries.DeleteProduct ≠ defaultQueries.UpdateProduct := by decide
  simp [Store.exec, h1, h2]

theorem maxID_spec (db : Store) (hne : db ≠ []) :
    ∃ m, maxID db = some m ∧ (∃ row ∈ db, row.id = m) ∧ ∀ row ∈ db, row.id ≤ m := by
  induction db with
  | nil => exact absurd rfl hne
  | cons r rs ih =>
    cases rs with
    | nil => exact ⟨r.id, rfl, ⟨r, by simp, rfl⟩, by simp⟩
    | cons r2 rs2 =>
      obtain ⟨m, hm, ⟨row, hrow, hid⟩, hle⟩ := ih (by simp)
      have hstep : maxID (r :: r2 :: rs2) = some (max r.id m) := by
        show (match maxID (r2 :: rs2) with
          | none => some r.id
          | some m => some (max r.id m)) = some (max r.id m)
        rw [hm]
      refine ⟨max r.id m, hstep, ?_, ?_⟩
      · rcases le_total r.id m with h | h
        · exact ⟨row, List.mem_cons_of_mem _ hrow, by rw [hid, max_eq_right h]⟩
        · exact ⟨r, List.mem_cons_self _ _, by rw [max_eq_left h]⟩
      · intro row2 hrow2
        rcases List.mem_cons.1 hrow2 with rfl | h
        · exact le_max_left _ _
        · exact le_trans (hle row2 h) (le_max_right _ _)

theorem filter_none_match (db : Store) (id : Int) (h : ∀ row ∈ db, row.id ≠ id) :
    db.filter (fun r => r.id = id) = [] ∧ db.filter (fun r => r.id ≠ id) = db ∧
      ∀ g : Row → Row, db.map (fun r => if r.id = id then g r else r) = db := by
  refine ⟨?_, ?_, ?_⟩
  · rw [List.filter_eq_nil_iff]
    intro row hrow
    simpa using h row hrow
  · rw [List.filter_eq_self]
    intro row hrow
    simpa using h row hrow
  · intro g
    conv_rhs => rw [← List.map_id db]
    apply List.map_congr_left
    intro row hrow
    simp [h row hrow]

theorem CreateProduct_eq (r : ProductRepo) (f : Faults) (db : Store) (inp : Product)
    (hq : r.Q.Get = defaultQueries) (h1 : f.begin = false) (h2 : f.query = false)
    (h3 : f.scan ≠ some 0) (h4 : f.exec = false) (h5 : f.commit = false)
    (hr : inInt64 ((maxID db).getD 0 + 1) = true) :
    r.CreateProduct f db inp
      = (.ok { inp with ProductID := (maxID db).getD 0 + 1 },
          db ++ [⟨(maxID db).getD 0 + 1, inp.Name, inp.AttributesVarchar, inp.AttributesClob,
            inp.AttributesBlob⟩]) := by
  simp [ProductRepo.CreateProduct, ProductRepo.nextProductID, hq, h1, h2, h3, h4, h5,
    query_nextProductID, scanInt64, hr, exec_insert]

theorem CreateProduct_ok_inv (r : ProductRepo) (f : Faults) (db : Store) (inp p : Product)
    (db2 : Store) (hq : r.Q.Get = defaultQueries)
    (h : r.CreateProduct f db inp = (.ok p, db2)) :
    f.begin = false ∧ f.query = false ∧ f.scan ≠ some 0 ∧ f.exec = false ∧ f.commit = false ∧
      inInt64 ((maxID db).getD 0 + 1) = true := by
  cases h1 : f.begin with
  | true => simp [ProductRepo.CreateProduct, h1] at h
  | false =>
  cases h2 : f.query with
  | true => simp [ProductRepo.CreateProduct, ProductRepo.nextProductID, h1, h2] at h
  | false =>
  by_cases h3 : f.scan = some 0
  · simp [ProductRepo.CreateProduct, ProductRepo.nextProductID, hq, h1, h2, h3,
      query_nextProductID] at h
  cases hr : inInt64 ((maxID db).getD 0 + 1) with
  | false =>
    simp [ProductRepo.CreateProduct, ProductRepo.nextProductID, hq, h1, h2, h3,
      query_nextProductID, scanInt64, hr] at h
  | true =>
  cases h4 : f.exec with
  | true =>
    simp [ProductRepo.CreateProduct, ProductRepo.nextProductID, hq, h1, h2, h3,
      query_nextProductID, scanInt64, hr, h4] at h
  | false =>
  cases h5 : f.commit with
  | true =>
    simp [ProductRepo.CreateProduct, ProductRepo.nextProductID, hq, h1, h2, h3,
      query_nextProductID, scanInt64, hr, h4, h5, exec_insert] at h
  | false => exact ⟨rfl, rfl, h3, rfl, rfl, rfl⟩

theorem listLoop_scan_fault (f : Faults) (i : Nat) (hf : f.scan = some i)
    (rows : List (List Value)) (j : Nat) (items : List Product) (h1 : j ≤ i)
    (h2 : i < j + rows.length) : ∃ e, listLoop f j rows items = .error e := by
  induction rows generalizing j items with
  | nil => simp at h2; omega
  | cons cols rest ih =>
    unfold listLoop
    by_cases hij : i = j
    · subst hij
      simp [scanListRow, hf]
    · cases hs : scanListRow f j cols with
      | error e => exact ⟨e, rfl⟩
      | ok p =>
        simp only []
        apply ih
        · omega
        · simp only [List.length_cons] at h2
          omega

theorem ListProducts_query_fault (r : ProductRepo) (f : Faults) (db : Store)
    (h : f.query = true) : ∃ e, r.ListProducts f db = .error e := by
  simp [ProductRepo.ListProducts, h]

theorem ListProducts_rowsErr_fault (r : ProductRepo) (f : Faults) (db : Store)
    (h : f.rowsErr = true) : ∃ e, r.ListProducts f db = .error e := by
  unfold ProductRepo.ListProducts
  cases f.query with
  | true => exact ⟨_, rfl⟩
  | false =>
    cases db.query r.Q.Get.ListProducts [] with
    | error e => exact ⟨_, rfl⟩
    | ok rows =>
      dsimp only
      cases listLoop f 0 rows [] with
      | error e => exact ⟨_, rfl⟩
      | ok items => simp [h]

theorem ListProducts_scan_fault (r : ProductRepo) (f : Faults) (db : Store) (i : Nat)
    (hf : f.scan = some i) (hi : i < db.length) : ∃ e, r.ListProducts f db = .error e := by
  unfold ProductRepo.ListProducts
  cases f.query with
  | true => exact ⟨_, rfl⟩
  | false =>
    by_cases hL : r.Q.Get.ListProducts = defaultQueries.ListProducts
    · have hlen : i < 0 + (List.map (fun r : Row =>
          [Value.int r.id, Value.text r.name, optText r.attrV, optText r.attrC,
            optBlob r.attrB]) (db.insertionSort (fun a b => a.id ≤ b.id))).length := by
        simpa [List.length_insertionSort] using hi
      obtain ⟨e, he⟩ := listLoop_scan_fault f i hf _ 0 [] (Nat.zero_le _) hlen
      simp [Store.query, hL, he]
    · by_cases hG : r.Q.Get.ListProducts = defaultQueries.GetProduct
      · have h1 : defaultQueries.GetProduct ≠ defaultQueries.ListProducts := by decide
        simp [Store.query, hG, h1]
      · by_cases hN : r.Q.Get.ListProducts = defaultQueries.NextProductID
        · have h1 : defaultQueries.NextProductID ≠ defaultQueries.ListProducts := by decide
          have h2 : defaultQueries.NextProductID ≠ defaultQueries.GetProduct := by decide
          by_cases h0 : f.scan = some 0 <;>
            simp [Store.query, hN, h1, h2, listLoop, scanListRow, h0]
        · simp [Store.query, hL, hG, hN]

theorem GetProduct_fault (r : ProductRepo) (f : Faults) (db : Store) (id : Int)
    (h : f.query = true ∨ f.scan = some 0) : ∃ e, r.GetProduct f db id = .error e := by
  unfold ProductRepo.GetProduct
  cases hq : f.query with
  | true => simp
  | false =>
    have hs : f.scan = some 0 := by
      rcases h with h | h
      · rw [hq] at h; cases h
      · exact h
    cases db.query r.Q.Get.GetProduct [.int id] with
    | error e => exact ⟨_, rfl⟩
    | ok rows =>
      cases rows with
      | nil => exact ⟨_, rfl⟩
      | cons cols rest => simp [hs]

theorem CreateProduct_fault (r : ProductRepo) (f : Faults) (db : Store) (inp : Product)
    (h : f.begin = true ∨ f.query = true ∨ f.scan = some 0 ∨ f.exec = true ∨ f.commit = true) :
    ∃ e, r.CreateProduct f db inp = (.error e, db) := by
  unfold ProductRepo.CreateProduct
  cases h1 : f.begin with
  | true => simp
  | false =>
    cases hn : r.nextProductID f db with
    | error e => simp
    | ok nid =>
      have hqs : f.query = false ∧ f.scan ≠ some 0 := by
        unfold ProductRepo.nextProductID at hn
        cases h2 : f.query with
        | true => simp [h2] at hn
        | false =>
          refine ⟨rfl, fun h3 => ?_⟩
          cases hq : db.query r.Q.Get.NextProductID [] with
          | error e => simp [h2, hq] at hn
          | ok rows =>
            cases rows with
            | nil => simp [h2, hq] at hn
            | cons cols rest => simp [h2, hq, h3] at hn
      dsimp only
      cases h4 : f.exec with
      | true => exact ⟨_, rfl⟩
      | false =>
        cases db.exec r.Q.Get.InsertProduct
            [.int nid, .text inp.Name, optText inp.AttributesVarchar,
              optText inp.AttributesClob, optBlob inp.AttributesBlob] with
        | error e => exact ⟨_, rfl⟩
        | ok res =>
          have h5 : f.commit = true := by
            rcases h with h | h | h | h | h
            · rw [h1] at h; cases h
            · rw [hqs.1] at h; cases h
            · exact absurd h hqs.2
            · rw [h4] at h; cases h
            · exact h
          simp [h5]

/-! ## Claims on the property parser and on `loadQueries` -/

/-- C1, counterexample: a properties text holds the recognized key `listproducts` with
the value `X` and then a line of 70000 bytes; `loadQueries` returns the scanner's error
and not the defaults with `ListProducts` replaced by `X`. -/
theorem loadQueries_long_line :
    loadQueries asciiTable (oneFile samplePath 1 longContent) samplePath = .error .tooLong ∧
      loadQueries asciiTable (oneFile samplePath 1 longContent) samplePath
        ≠ .ok { defaultQueries with ListProducts := "X".toList } := by
  have h := loadQueries_long asciiTable samplePath 1 "listproducts=X".toList 70000
    (by decide) (by decide)
  exact ⟨h, fun h3 => Except.noConfusion (h.symm.trans h3)⟩

/-- C1, amended: for every properties text that the scanner reads without error as the
lines `lines`, `loadQueries` returns `defaultQueries` with each of the six fields replaced
by the value of the last line whose lower-cased key is the field's key, and left at its
default when no line has that key; a line whose key is not one of the six changes
nothing. -/
theorem loadQueries_overrides (tbl : Char → Char) (fs : FS) (path content : Str)
    (lines : List Str) (hopen : Open fs path = .ok content)
    (hscan : scanLines content = .ok lines) :
    loadQueries tbl fs path = .ok
      { ListProducts := (lastValue (ToLower tbl) "listproducts".toList (entries lines)).getD
          defaultQueries.ListProducts,
        GetProduct := (lastValue (ToLower tbl) "getproduct".toList (entries lines)).getD
          defaultQueries.GetProduct,
        NextProductID := (lastValue (ToLower tbl) "nextproductid".toList (entries lines)).getD
          defaultQueries.NextProductID,
        InsertProduct := (lastValue (ToLower tbl) "insertproduct".toList (entries lines)).getD
          defaultQueries.InsertProduct,
        UpdateProduct := (lastValue (ToLower tbl) "updateproduct".toList (entries lines)).getD
          defaultQueries.UpdateProduct,
        DeleteProduct := (lastValue (ToLower tbl) "deleteproduct".toList (entries lines)).getD
          defaultQueries.DeleteProduct } ∧
    (∀ key, lastValue (ToLower tbl) key (entries lines) = none ↔
      ∀ e ∈ entries lines, ToLower tbl e.1 ≠ key) ∧
    (∀ pre text post fs2 content2, lines = pre ++ text :: post →
      (∀ k v, parseLine text = some (k, v) → ToLower tbl k ∉ recognizedKeys) →
      Open fs2 path = .ok content2 → scanLines content2 = .ok (pre ++ post) →
      loadQueries tbl fs2 path = loadQueries tbl fs path) := by
  refine ⟨?_, fun key => lastValue_eq_none _ _ _, ?_⟩
  · rw [loadQueries_ok tbl fs path content lines hopen hscan, applyOverrides_eq]
    simp only [loadQueriesLoop_lookup]
  · intro pre text post fs2 content2 hl hun hopen2 hscan2
    rw [loadQueries_ok tbl fs path content lines hopen hscan,
      loadQueries_ok tbl fs2 path content2 _ hopen2 hscan2, hl]
    congr 1
    apply applyOverrides_congr
    intro key hkey
    unfold loadQueriesLoop
    rw [loadQueriesStep_eq]
    symm
    apply foldl_stepWith_other
    intro k v hp hk
    exact hun k v hp (hk ▸ hkey)

/-- C1, witness: a text with a comment, `ListProducts = X` and `foo=1`. -/
theorem loadQueries_overrides_witness :
    Open (oneFile samplePath 1 sampleContent) samplePath = .ok sampleContent ∧
      scanLines sampleContent
        = .ok ["# queries".toList, "ListProducts = X".toList, "foo=1".toList] ∧
      loadQueries asciiTable (oneFile samplePath 1 sampleContent) samplePath
        = .ok { defaultQueries with ListProducts := "X".toList } := by
  refine ⟨by decide, by decide, ?_⟩
  rw [(loadQueries_overrides asciiTable (oneFile samplePath 1 sampleContent) samplePath
    sampleContent ["# queries".toList, "ListProducts = X".toList, "foo=1".toList]
    (by decide) (by decide)).1]
  decide

/-- C2, counterexample: for the line `ListProducts=x` the loop inside `loadQueries` makes
no entry under the trimmed key `ListProducts`; the entry is under `listproducts`. -/
theorem loadQueries_entry_not_under_trimmed_key :
    ¬ (loadQueriesLoop asciiTable ["ListProducts=x".toList] (TrimSpace "ListProducts".toList)
        = some (TrimSpace "x".toList)) ∧
      loadQueriesLoop asciiTable ["ListProducts=x".toList] "ListProducts".toList = none ∧
      loadQueriesLoop asciiTable ["ListProducts=x".toList] "listproducts".toList
        = some "x".toList := by
  decide

/-- C2, amended: among the lines `pre ++ text :: post` given to the scanning loop, a line
`text` that is empty after trimming or whose trimmed text starts with `#` or `;` makes no
entry, in `readProperties` and in `loadQueries`.  A line `key=value`, or `key:value` without
any `=`, that is no comment is split into the trimmed key and the trimmed value;
`readProperties` stores the value under the trimmed key, `loadQueries` stores it under the
lower-cased trimmed key, and the entry is in the resulting map unless a line after it
assigns the same key. -/
theorem parser_entries (tbl : Char → Char) (pre post : List Str) (text : Str) :
    ((isBlank text = true ∨ isComment text = true) →
      parseLine text = none ∧
      readPropertiesLoop (pre ++ text :: post) = readPropertiesLoop (pre ++ post) ∧
      loadQueriesLoop tbl (pre ++ text :: post) = loadQueriesLoop tbl (pre ++ post)) ∧
    (∀ key val sep, text = key ++ sep :: val → isComment text = false →
      ((sep = '=' ∧ '=' ∉ key) ∨ (sep = ':' ∧ ':' ∉ key ∧ '=' ∉ text)) →
      parseLine text = some (TrimSpace key, TrimSpace val) ∧
      ((∀ l ∈ post, ∀ k2 v2, parseLine l = some (k2, v2) → k2 ≠ TrimSpace key) →
        readPropertiesLoop (pre ++ text :: post) (TrimSpace key) = some (TrimSpace val)) ∧
      ((∀ l ∈ post, ∀ k2 v2, parseLine l = some (k2, v2) →
          ToLower tbl k2 ≠ ToLower tbl (TrimSpace key)) →
        loadQueriesLoop tbl (pre ++ text :: post) (ToLower tbl (TrimSpace key))
          = some (TrimSpace val))) := by
  constructor
  · intro h
    have hp := parseLine_skip text h
    refine ⟨hp, ?_, ?_⟩
    · unfold readPropertiesLoop
      rw [readPropertiesStep_eq]
      exact foldl_stepWith_skip id pre post text _ hp
    · unfold loadQueriesLoop
      rw [loadQueriesStep_eq]
      exact foldl_stepWith_skip _ pre post text _ hp
  · intro key val sep htext hc hsep
    have hp : parseLine text = some (TrimSpace key, TrimSpace val) := by
      subst htext
      rcases hsep with ⟨rfl, hk⟩ | ⟨rfl, hk, he⟩
      · exact parseLine_eq key val hk hc
      · exact parseLine_colon key val hk he hc
    refine ⟨hp, ?_, ?_⟩
    · intro hpost
      unfold readPropertiesLoop
      rw [readPropertiesStep_eq]
      exact foldl_stepWith_kept id pre post text _ _ _ hp hpost
    · intro hpost
      unfold loadQueriesLoop
      rw [loadQueriesStep_eq]
      exact foldl_stepWith_kept (ToLower tbl) pre post text _ _ _ hp hpost

/-- C2, witness: the lines `# c`, ` Key = some value ` and `other: 1`. -/
theorem parser_entries_witness :
    isComment " Key = some value ".toList = false ∧
      parseLine " Key = some value ".toList = some ("Key".toList, "some value".toList) ∧
      readPropertiesLoop ["# c".toList, " Key = some value ".toList, "other: 1".toList]
        "Key".toList = some "some value".toList ∧
      loadQueriesLoop asciiTable
        ["# c".toList, " Key = some value ".toList, "other: 1".toList]
        "key".toList = some "some value".toList := by
  have h := (parser_entries asciiTable ["# c".toList] ["other: 1".toList]
    " Key = some value ".toList).2 " Key ".toList " some value ".toList '='
    (by decide) (by decide) (Or.inl ⟨rfl, by decide⟩)
  refine ⟨by decide, ?_, ?_, ?_⟩
  · exact h.1.trans (by decide)
  · refine (h.2.1 ?_).trans (by decide)
    intro l hl k2 v2 hp heq
    rw [List.mem_singleton] at hl
    subst hl
    have h0 : parseLine "other: 1".toList = some ("other".toList, "1".toList) := by decide
    rw [h0] at hp
    cases hp
    revert heq
    decide
  · refine (h.2.2 ?_).trans (by decide)
    intro l hl k2 v2 hp heq
    rw [List.mem_singleton] at hl
    subst hl
    have h0 : parseLine "other: 1".toList = some ("other".toList, "1".toList) := by decide
    rw [h0] at hp
    cases hp
    revert heq
    decide

theorem stored_entry (tbl : Char → Char) (text key val : Str)
    (hp : parseLine text = some (key, val)) (fs : FS) (path content : Str)
    (pre post : List Str) (hopen : Open fs path = .ok content)
    (hscan : scanLines content = .ok (pre ++ text :: post)) :
    ((∀ l ∈ post, ∀ k2 v2, parseLine l = some (k2, v2) → k2 ≠ key) →
      ∃ out, readProperties fs path = .ok out ∧ out key = some val) ∧
    ((∀ l ∈ post, ∀ k2 v2, parseLine l = some (k2, v2) → ToLower tbl k2 ≠ ToLower tbl key) →
      loadQueriesLoop tbl (pre ++ text :: post) (ToLower tbl key) = some val ∧
      loadQueries tbl fs path = .ok (applyOverrides (loadQueriesLoop tbl (pre ++ text :: post)))) := by
  constructor
  · intro hpost
    refine ⟨readPropertiesLoop (pre ++ text :: post), by simp [readProperties, hopen, hscan], ?_⟩
    unfold readPropertiesLoop
    rw [readPropertiesStep_eq]
    exact foldl_stepWith_kept id pre post text _ _ _ hp hpost
  · intro hpost
    refine ⟨?_, loadQueries_ok tbl fs path content _ hopen hscan⟩
    unfold loadQueriesLoop
    rw [loadQueriesStep_eq]
    exact foldl_stepWith_kept (ToLower tbl) pre post text _ _ _ hp hpost

/-- C3: a line that is neither blank nor a comment is split once at its first `=` when it
has one, whatever stands before or after it; else once at its first `:` when it has one;
`readProperties` stores the trimmed value under the trimmed key so split and `loadQueries`
under the lower-cased key, unless a line after it assigns the same key.  A line with
neither separator makes no entry, and a file that holds it is read without error, as if
the line were not there. -/
theorem separator_choice (tbl : Char → Char) (text : Str) (hb : isBlank text = false)
    (hc : isComment text = false) :
    (∀ key val, text = key ++ '=' :: val → '=' ∉ key →
      parseLine text = some (TrimSpace key, TrimSpace val) ∧
      ∀ fs path content pre post, Open fs path = .ok content →
        scanLines content = .ok (pre ++ text :: post) →
        ((∀ l ∈ post, ∀ k2 v2, parseLine l = some (k2, v2) → k2 ≠ TrimSpace key) →
          ∃ out, readProperties fs path = .ok out ∧
            out (TrimSpace key) = some (TrimSpace val)) ∧
        ((∀ l ∈ post, ∀ k2 v2, parseLine l = some (k2, v2) →
            ToLower tbl k2 ≠ ToLower tbl (TrimSpace key)) →
          loadQueriesLoop tbl (pre ++ text :: post) (ToLower tbl (TrimSpace key))
            = some (TrimSpace val) ∧
          loadQueries tbl fs path
            = .ok (applyOverrides (loadQueriesLoop tbl (pre ++ text :: post))))) ∧
    (∀ key val, '=' ∉ text → text = key ++ ':' :: val → ':' ∉ key →
      parseLine text = some (TrimSpace key, TrimSpace val) ∧
      ∀ fs path content pre post, Open fs path = .ok content →
        scanLines content = .ok (pre ++ text :: post) →
        ((∀ l ∈ post, ∀ k2 v2, parseLine l = some (k2, v2) → k2 ≠ TrimSpace key) →
          ∃ out, readProperties fs path = .ok out ∧
            out (TrimSpace key) = some (TrimSpace val)) ∧
        ((∀ l ∈ post, ∀ k2 v2, parseLine l = some (k2, v2) →
            ToLower tbl k2 ≠ ToLower tbl (TrimSpace key)) →
          loadQueriesLoop tbl (pre ++ text :: post) (ToLower tbl (TrimSpace key))
            = some (TrimSpace val) ∧
          loadQueries tbl fs path
            = .ok (applyOverrides (loadQueriesLoop tbl (pre ++ text :: post))))) ∧
    ('=' ∉ text → ':' ∉ text →
      parseLine text = none ∧
      ∀ fs path content pre post, Open fs path = .ok content →
        scanLines content = .ok (pre ++ text :: post) →
        (∃ out, readProperties fs path = .ok out ∧ out = readPropertiesLoop (pre ++ post)) ∧
        loadQueries tbl fs path = .ok (applyOverrides (loadQueriesLoop tbl (pre ++ post)))) := by
  refine ⟨?_, ?_, ?_⟩
  · intro key val htext hk
    have hp : parseLine text = some (TrimSpace key, TrimSpace val) := by
      subst htext
      exact parseLine_eq key val hk hc
    exact ⟨hp, fun fs path content pre post hopen hscan =>
      stored_entry tbl text _ _ hp fs path content pre post hopen hscan⟩
  · intro key val he htext hk
    have hp : parseLine text = some (TrimSpace key, TrimSpace val) := by
      subst htext
      exact parseLine_colon key val hk he hc
    exact ⟨hp, fun fs path content pre post hopen hscan =>
      stored_entry tbl text _ _ hp fs path content pre post hopen hscan⟩
  · intro h1 h2
    have hp := parseLine_nosep text h1 h2
    refine ⟨hp, ?_⟩
    intro fs path content pre post hopen hscan
    constructor
    · refine ⟨readPropertiesLoop (pre ++ text :: post), ?_, ?_⟩
      · simp [readProperties, hopen, hscan]
      · unfold readPropertiesLoop
        rw [readPropertiesStep_eq]
        exact foldl_stepWith_skip id pre post text _ hp
    · rw [loadQueries_ok tbl fs path content _ hopen hscan]
      unfold loadQueriesLoop
      rw [loadQueriesStep_eq, foldl_stepWith_skip _ pre post text _ hp]

/-- C3, witness: in the file `x=1`, `url: a=b:c=d` the second line is split at its first
`=` and `readProperties` stores `b:c=d` under `url: a`; in the file `GetProduct: a:b` the
line is split at its first `:` and `loadQueries` makes `a:b` the statement `GetProduct`;
the line `orphan` makes no entry. -/
theorem separator_choice_witness :
    (∃ out, readProperties (oneFile samplePath 1 "x=1\nurl: a=b:c=d".toList) samplePath
        = .ok out ∧ out "url: a".toList = some "b:c=d".toList) ∧
      loadQueries asciiTable (oneFile samplePath 1 "GetProduct: a:b".toList) samplePath
        = .ok { defaultQueries with GetProduct := "a:b".toList } ∧
      readProperties (oneFile samplePath 1 "a=1\norphan\nb=2".toList) samplePath
        = .ok (readPropertiesLoop ["a=1".toList, "b=2".toList]) := by
  refine ⟨?_, ?_, ?_⟩
  · exact (((separator_choice asciiTable "url: a=b:c=d".toList (by decide) (by decide)).1
      "url: a".toList "b:c=d".toList (by decide) (by decide)).2
      (oneFile samplePath 1 "x=1\nurl: a=b:c=d".toList) samplePath
      "x=1\nurl: a=b:c=d".toList ["x=1".toList] [] (by decide) (by decide)).1
      (fun l hl => absurd hl (List.not_mem_nil l))
  · rw [((((separator_choice asciiTable "GetProduct: a:b".toList (by decide) (by decide)).2.1
      "GetProduct".toList " a:b".toList (by decide) (by decide) (by decide)).2
      (oneFile samplePath 1 "GetProduct: a:b".toList) samplePath
      "GetProduct: a:b".toList [] [] (by decide) (by decide)).2
      (fun l hl => absurd hl (List.not_mem_nil l))).2]
    decide
  · obtain ⟨out, h1, h2⟩ :=
      (((separator_choice asciiTable "orphan".toList (by decide) (by decide)).2.2
        (by decide) (by decide)).2 (oneFile samplePath 1 "a=1\norphan\nb=2".toList)
        samplePath "a=1\norphan\nb=2".toList ["a=1".toList] ["b=2".toList]
        (by decide) (by decide)).1
    rw [h1, h2]
    rfl

/-- C4, counterexample: without the file `loadQueries` fails; it does not return the
defaults. -/
theorem loadQueries_absent_fails :
    loadQueries asciiTable emptyFS samplePath = .error .notExist ∧
      loadQueries asciiTable emptyFS samplePath ≠ .ok defaultQueries := by
  decide

theorem refreshCycle_load_fails (tbl : Char → Char) (s : StartState) (io : Snapshot)
    (h : ∃ e, loadQueries tbl io.atOpen s.m.path = .error e) :
    (refreshCycle tbl s io).1 = s := by
  obtain ⟨e, he⟩ := h
  unfold refreshCycle
  cases Stat io.atStat s.m.path with
  | error e2 => rfl
  | ok t =>
    by_cases ht : t > s.lastModTime
    · simp [ht, he]
    · simp [ht]

theorem runCycles_loads_fail (tbl : Char → Char) (ticks : List Snapshot) (s : StartState)
    (h : ∀ io ∈ ticks, ∃ e, loadQueries tbl io.atOpen s.m.path = .error e) :
    runCycles tbl s ticks = s := by
  induction ticks with
  | nil => rfl
  | cons io rest ih =>
    rw [runCycles_cons, refreshCycle_load_fails tbl s io (h io (List.mem_cons_self _ _))]
    exact ih (fun io2 h2 => h io2 (List.mem_cons_of_mem _ h2))

theorem initialLoad_load_fails (tbl : Char → Char) (m : Manager) (io : Snapshot)
    (h : ∃ e, loadQueries tbl io.atOpen m.path = .error e) :
    initialLoad tbl m io = ⟨m, 0⟩ := by
  obtain ⟨e, he⟩ := h
  unfold initialLoad
  cases Stat io.atStat m.path with
  | error e2 => rfl
  | ok t => simp [he]

/-- C4, amended: without the file `loadQueries` returns the error of `os.Open`, and for a
file that the scanner does not read to its end it returns the scanner's error; a manager
started while the file stays absent, or while every load fails, goes on to serve
`defaultQueries`; for a file that is read without error and in which no line has one of
the six keys, `loadQueries` returns `defaultQueries` and no error. -/
theorem loadQueries_defaults (tbl : Char → Char) (fs : FS) (path : Str) :
    (fs path = none →
      loadQueries tbl fs path = .error .notExist ∧
      ∀ init ticks, (∀ io ∈ init :: ticks, io.atStat path = none) →
        (Manager.Start tbl (NewManager path) init ticks).m.Get = defaultQueries) ∧
    (∀ content e, Open fs path = .ok content → scanLines content = .error e →
      loadQueries tbl fs path = .error e) ∧
    (∀ init ticks, (∀ io ∈ init :: ticks, ∃ e, loadQueries tbl io.atOpen path = .error e) →
      (Manager.Start tbl (NewManager path) init ticks).m.Get = defaultQueries) ∧
    (∀ content lines, Open fs path = .ok content → scanLines content = .ok lines →
      (∀ e ∈ entries lines, ToLower tbl e.1 ∉ recognizedKeys) →
      loadQueries tbl fs path = .ok defaultQueries) := by
  refine ⟨?_, ?_, ?_, ?_⟩
  · intro h
    refine ⟨by simp [loadQueries, Open, h], ?_⟩
    intro init ticks hall
    have hinit : initialLoad tbl (NewManager path) init = ⟨NewManager path, 0⟩ := by
      have := hall init (List.mem_cons_self _ _)
      simp [initialLoad, Stat, NewManager, this]
    unfold Manager.Start
    rw [hinit, runCycles_absent tbl ticks _
      (fun io hio => hall io (List.mem_cons_of_mem _ hio))]
    rfl
  · intro content e hopen hscan
    simp [loadQueries, hopen, hscan]
  · intro init ticks hall
    unfold Manager.Start
    rw [initialLoad_load_fails tbl (NewManager path) init (hall init (List.mem_cons_self _ _)),
      runCycles_loads_fail tbl ticks _ (fun io hio => hall io (List.mem_cons_of_mem _ hio))]
    rfl
  · intro content lines hopen hscan hnone
    rw [loadQueries_ok tbl fs path content lines hopen hscan, applyOverrides_eq]
    have hk : ∀ key ∈ recognizedKeys, loadQueriesLoop tbl lines key = none := by
      intro key hkey
      rw [loadQueriesLoop_lookup, lastValue_eq_none]
      intro e he heq
      exact hnone e he (heq ▸ hkey)
    rw [hk _ (by simp [recognizedKeys]), hk "getproduct".toList (by simp [recognizedKeys]),
      hk "nextproductid".toList (by simp [recognizedKeys]),
      hk "insertproduct".toList (by simp [recognizedKeys]),
      hk "updateproduct".toList (by simp [recognizedKeys]),
      hk "deleteproduct".toList (by simp [recognizedKeys])]
    rfl

/-- C4, witness: no file; a file with a line of 70000 bytes; a file that may not be read,
seen by the manager in three passes; a file with a comment and an unknown key. -/
theorem loadQueries_defaults_witness :
    loadQueries asciiTable emptyFS samplePath = .error .notExist ∧
      (Manager.Start asciiTable (NewManager samplePath) (Snapshot.still emptyFS)
        [Snapshot.still emptyFS, Snapshot.still emptyFS]).m.Get = defaultQueries ∧
      loadQueries asciiTable (oneFile samplePath 1 longContent) samplePath = .error .tooLong ∧
      (Manager.Start asciiTable (NewManager samplePath) (Snapshot.still lockedFS)
        [Snapshot.still lockedFS, Snapshot.still lockedFS]).m.Get = defaultQueries ∧
      loadQueries asciiTable (oneFile samplePath 1 "# none\nfoo = bar".toList) samplePath
        = .ok defaultQueries := by
  have h := (loadQueries_defaults asciiTable emptyFS samplePath).1 rfl
  have hlocked : ∃ e, loadQueries asciiTable lockedFS samplePath = .error e :=
    ⟨.permission, by decide⟩
  refine ⟨h.1, h.2 _ _ (by simp [Snapshot.still, emptyFS]), ?_, ?_, ?_⟩
  · exact (loadQueries_defaults asciiTable (oneFile samplePath 1 longContent) samplePath).2.1
      longContent .tooLong (Open_oneFile _ _ _)
      (scanLines_long "listproducts=X".toList 70000 (by decide) (by decide))
  · exact (loadQueries_defaults asciiTable lockedFS samplePath).2.2.1 _ _
      (by simpa [Snapshot.still] using hlocked)
  · exact (loadQueries_defaults asciiTable (oneFile samplePath 1 "# none\nfoo = bar".toList)
      samplePath).2.2.2 "# none\nfoo = bar".toList ["# none".toList, "foo = bar".toList]
      (by decide) (by decide) (by decide)

/-! ## Claims on the manager -/

/-- C5: in every state that `Start` reaches from `NewManager`, after the initial load and
any number of passes of the polling loop, `Get` returns `defaultQueries` or the very
value that one call of `loadQueries`, made in one of the passes, returned. -/
theorem Get_whole_snapshot (tbl : Char → Char) (path : Str) (init : Snapshot)
    (ticks : List Snapshot) :
    (Manager.Start tbl (NewManager path) init ticks).m.Get = defaultQueries ∨
      ∃ io ∈ init :: ticks,
        loadQueries tbl io.atOpen path
          = .ok (Manager.Start tbl (NewManager path) init ticks).m.Get := by
  unfold Manager.Start Manager.Get
  obtain ⟨_, hc⟩ := runCycles_snapshot tbl ticks (initialLoad tbl (NewManager path) init)
  rcases initialLoad_cases tbl (NewManager path) init with h | ⟨q, t, hq, h⟩
  · rw [h] at hc ⊢
    rcases hc with hc | ⟨io, hio, hl⟩
    · exact Or.inl hc
    · exact Or.inr ⟨io, List.mem_cons_of_mem _ hio, hl⟩
  · rw [h] at hc ⊢
    right
    rcases hc with hc | ⟨io, hio, hl⟩
    · exact ⟨init, List.mem_cons_self _ _, by rw [hc]; exact hq⟩
    · exact ⟨io, List.mem_cons_of_mem _ hio, hl⟩

/-- C6: a pass of the polling loop leaves the current set and the recorded time as they
were when `os.Stat` fails, when the modification time is not after the recorded one, and
when `loadQueries` fails; while the file stays deleted the state does not change, for any
number of passes, so `Get` returns the set of the last load that succeeded, be it the
initial load or a reload. -/
theorem refresh_keeps_last_good (tbl : Char → Char) (s : StartState) (io : Snapshot) :
    ((∃ e, Stat io.atStat s.m.path = .error e) → (refreshCycle tbl s io).1 = s) ∧
    (∀ t, Stat io.atStat s.m.path = .ok t → ¬ t > s.lastModTime →
      (refreshCycle tbl s io).1 = s) ∧
    ((∃ e, loadQueries tbl io.atOpen s.m.path = .error e) → (refreshCycle tbl s io).1 = s) ∧
    (∀ ticks, (∀ io2 ∈ ticks, io2.atStat s.m.path = none) →
      runCycles tbl s ticks = s ∧
      ((refreshCycle tbl s io).2 = .reloaded →
        loadQueries tbl io.atOpen s.m.path
          = .ok (runCycles tbl (refreshCycle tbl s io).1 ticks).m.Get) ∧
      (∀ t q, Stat io.atStat s.m.path = .ok t → loadQueries tbl io.atOpen s.m.path = .ok q →
        (Manager.Start tbl s.m io ticks).m.Get = q)) := by
  refine ⟨?_, ?_, ?_, ?_⟩
  · rintro ⟨e, he⟩
    simp [refreshCycle, he]
  · intro t ht hnot
    simp [refreshCycle, ht, hnot]
  · rintro ⟨e, he⟩
    unfold refreshCycle
    cases Stat io.atStat s.m.path with
    | error e2 => rfl
    | ok t =>
      by_cases ht : t > s.lastModTime
      · simp [ht, he]
      · simp [ht]
  · intro ticks hall
    refine ⟨runCycles_absent tbl ticks s hall, ?_, ?_⟩
    · intro hre
      have hpath : (refreshCycle tbl s io).1.m.path = s.m.path := by
        rcases refreshCycle_cases tbl s io with h | ⟨q, t, _, h⟩ <;> rw [h]
      rw [runCycles_absent tbl ticks _ (by rw [hpath]; exact hall)]
      unfold refreshCycle at hre ⊢
      cases hst : Stat io.atStat s.m.path with
      | error e => simp [hst] at hre
      | ok t =>
        by_cases ht : t > s.lastModTime
        · cases hq : loadQueries tbl io.atOpen s.m.path with
          | error e => simp [hst, ht, hq] at hre
          | ok q => simp [ht, Manager.Get]
        · simp [hst, ht] at hre
    · intro t q hst hq
      have hinit : initialLoad tbl s.m io = ⟨{ s.m with current := q }, t⟩ := by
        simp [initialLoad, hst, hq]
      unfold Manager.Start
      rw [hinit, runCycles_absent tbl ticks ⟨{ s.m with current := q }, t⟩
        (fun io2 h2 => hall io2 h2)]
      rfl

/-- C6, witness: the properties file is loaded and then deleted; three passes later `Get`
still returns what was loaded. -/
theorem refresh_keeps_last_good_witness :
    (Manager.Start asciiTable (NewManager samplePath)
      (Snapshot.still (oneFile samplePath 1 sampleContent))
      [Snapshot.still emptyFS, Snapshot.still emptyFS, Snapshot.still emptyFS]).m.Get
      = { defaultQueries with ListProducts := "X".toList } := by
  exact ((refresh_keeps_last_good asciiTable ⟨NewManager samplePath, 0⟩
    (Snapshot.still (oneFile samplePath 1 sampleContent))).2.2.2
    [Snapshot.still emptyFS, Snapshot.still emptyFS, Snapshot.still emptyFS]
    (by simp [Snapshot.still, emptyFS])).2.2 1 _ (by decide) (by decide)

/-- C7, counterexample: the file has modification time 5 and may not be read; the first
pass finds the time advanced and fails to load, and the second pass, on the same file with
the same modification time, calls `loadQueries` again. -/
theorem failed_reload_is_retried :
    (refreshCycle asciiTable ⟨NewManager samplePath, 0⟩ (Snapshot.still lockedFS)).2
        = .reloadFailed ∧
      ¬ ((refreshCycle asciiTable
          (refreshCycle asciiTable ⟨NewManager samplePath, 0⟩ (Snapshot.still lockedFS)).1
          (Snapshot.still lockedFS)).2.calledLoadQueries = false) := by
  decide

/-- C7, amended: after a pass in which the modification time had advanced but
`loadQueries` failed, the state, and with it the recorded time, is as before the pass; so
the next pass, for a file with the same modification time, calls `loadQueries` again. -/
theorem failed_reload_retry (tbl : Char → Char) (s : StartState) (io io2 : Snapshot)
    (hfail : (refreshCycle tbl s io).2 = .reloadFailed)
    (hsame : Stat io2.atStat s.m.path = Stat io.atStat s.m.path) :
    (refreshCycle tbl s io).1 = s ∧
      (refreshCycle tbl (refreshCycle tbl s io).1 io2).2.calledLoadQueries = true := by
  have key : (refreshCycle tbl s io).1 = s ∧
      ∃ t, Stat io.atStat s.m.path = .ok t ∧ t > s.lastModTime := by
    unfold refreshCycle at hfail ⊢
    cases hst : Stat io.atStat s.m.path with
    | error e => simp [hst] at hfail
    | ok t =>
      by_cases ht : t > s.lastModTime
      · cases hq : loadQueries tbl io.atOpen s.m.path with
        | error e => exact ⟨by simp [ht], t, rfl, ht⟩
        | ok q => simp [hst, ht, hq] at hfail
      · simp [hst, ht] at hfail
  obtain ⟨h1, t, hst, ht⟩ := key
  refine ⟨h1, ?_⟩
  rw [h1]
  unfold refreshCycle
  rw [hsame, hst]
  cases loadQueries tbl io2.atOpen s.m.path <;> simp [ht, Event.calledLoadQueries]

/-- C7, witness: the unreadable file of modification time 5, seen in two passes. -/
theorem failed_reload_retry_witness :
    (refreshCycle asciiTable ⟨NewManager samplePath, 0⟩ (Snapshot.still lockedFS)).2
        = .reloadFailed ∧
      (refreshCycle asciiTable
        (refreshCycle asciiTable ⟨NewManager samplePath, 0⟩ (Snapshot.still lockedFS)).1
        (Snapshot.still lockedFS)).2.calledLoadQueries = true :=
  ⟨by decide, (failed_reload_retry asciiTable ⟨NewManager samplePath, 0⟩
    (Snapshot.still lockedFS) (Snapshot.still lockedFS) (by decide) rfl).2⟩

/-! ## Claims on the repository -/

/-- C8: with the default templates, a `CreateProduct` that succeeds has appended one row
whose identifier is 1 for the empty table and the greatest identifier plus one otherwise,
and has returned the candidate with `ProductID` set to that identifier and every other
field as given; it does succeed when no storage call fails and the identifier fits
`int64`; on the empty store a create of `Widget` returns identifier 1 and a following
create of `Gadget` returns identifier 2. -/
theorem CreateProduct_next_id (r : ProductRepo) (f : Faults) (db : Store) (inp : Product)
    (hq : r.Q.Get = defaultQueries) :
    (∀ p db2, r.CreateProduct f db inp = (.ok p, db2) →
      p = { inp with ProductID := p.ProductID } ∧
      db2 = db ++ [⟨p.ProductID, inp.Name, inp.AttributesVarchar, inp.AttributesClob,
        inp.AttributesBlob⟩] ∧
      (db = [] → p.ProductID = 1) ∧
      (db ≠ [] → (∃ row ∈ db, p.ProductID = row.id + 1) ∧ ∀ row ∈ db, row.id < p.ProductID)) ∧
    ((db = [] ∨ ∀ row ∈ db, inInt64 (row.id + 1) = true) →
      ∃ p db2, r.CreateProduct noFaults db inp = (.ok p, db2)) ∧
    ((r.CreateProduct noFaults [] (named "Widget".toList)).1
        = .ok { named "Widget".toList with ProductID := 1 } ∧
      (r.CreateProduct noFaults (r.CreateProduct noFaults [] (named "Widget".toList)).2
        (named "Gadget".toList)).1 = .ok { named "Gadget".toList with ProductID := 2 }) := by
  refine ⟨?_, ?_, ?_⟩
  · intro p db2 h
    obtain ⟨h1, h2, h3, h4, h5, hr⟩ := CreateProduct_ok_inv r f db inp p db2 hq h
    rw [CreateProduct_eq r f db inp hq h1 h2 h3 h4 h5 hr] at h
    injection h with hp hdb
    injection hp with hp
    subst hp
    refine ⟨rfl, hdb.symm, ?_, ?_⟩
    · intro he
      subst he
      rfl
    · intro hne
      obtain ⟨m, hm, ⟨row, hrow, hid⟩, hle⟩ := maxID_spec db hne
      simp only [hm, Option.getD_some]
      refine ⟨⟨row, hrow, by rw [hid]⟩, ?_⟩
      intro row2 hrow2
      have := hle row2 hrow2
      omega
  · intro hfit
    have hr : inInt64 ((maxID db).getD 0 + 1) = true := by
      rcases hfit with he | hall
      · subst he
        decide
      · by_cases hne : db = []
        · subst hne
          decide
        · obtain ⟨m, hm, ⟨row, hrow, hid⟩, _⟩ := maxID_spec db hne
          simp only [hm, Option.getD_some]
          rw [← hid]
          exact hall row hrow
    exact ⟨_, _, CreateProduct_eq r noFaults db inp hq rfl rfl (by decide) rfl rfl hr⟩
  · have hw := CreateProduct_eq r noFaults [] (named "Widget".toList) hq rfl rfl (by decide)
      rfl rfl (by decide)
    rw [hw]
    refine ⟨rfl, ?_⟩
    rw [CreateProduct_eq r noFaults _ (named "Gadget".toList) hq rfl rfl (by decide)
      rfl rfl (by decide)]
    rfl

/-- C8, witness: two rows with identifiers 7 and 3; the created product gets 8. -/
theorem CreateProduct_next_id_witness :
    (NewProductRepo (NewManager samplePath)).CreateProduct noFaults
        [⟨7, "a".toList, none, none, none⟩, ⟨3, "b".toList, none, none, none⟩]
        (named "Widget".toList)
      = (.ok { named "Widget".toList with ProductID := 8 },
          [⟨7, "a".toList, none, none, none⟩, ⟨3, "b".toList, none, none, none⟩,
           ⟨8, "Widget".toList, none, none, none⟩]) ∧
      ((∃ row ∈ ([⟨7, "a".toList, none, none, none⟩, ⟨3, "b".toList, none, none, none⟩] : Store),
          (8 : Int) = row.id + 1) ∧
        ∀ row ∈ ([⟨7, "a".toList, none, none, none⟩, ⟨3, "b".toList, none, none, none⟩] : Store),
          row.id < 8) :=
  ⟨by decide,
    ((CreateProduct_next_id (NewProductRepo (NewManager samplePath)) noFaults
      [⟨7, "a".toList, none, none, none⟩, ⟨3, "b".toList, none, none, none⟩]
      (named "Widget".toList) rfl).1 { named "Widget".toList with ProductID := 8 }
      [⟨7, "a".toList, none, none, none⟩, ⟨3, "b".toList, none, none, none⟩,
       ⟨8, "Widget".toList, none, none, none⟩] (by decide)).2.2.2 (by decide)⟩

/-- C9: with the default templates, when the statement is executed and the count of rows
is read without failure, `UpdateProduct` and `DeleteProduct` of an identifier that matches
no row return false and no error and leave the store as it was; `DeleteProduct` of an
identifier that matches a row returns true, and a second `DeleteProduct` of the same
identifier right after returns false and no error. -/
theorem update_delete_zero_rows (r : ProductRepo) (f : Faults) (db : Store) (id : Int)
    (inp : Product) (hq : r.Q.Get = defaultQueries) (hexec : f.exec = false)
    (hcount : f.rowsAffected = none) :
    ((∀ row ∈ db, row.id ≠ id) →
      r.UpdateProduct f db id inp = (.ok false, db) ∧
      r.DeleteProduct f db id = (.ok false, db)) ∧
    ((∃ row ∈ db, row.id = id) →
      (r.DeleteProduct f db id).1 = .ok true ∧
      r.DeleteProduct f (r.DeleteProduct f db id).2 id
        = (.ok false, (r.DeleteProduct f db id).2)) := by
  have hdel : ∀ d : Store, r.DeleteProduct f d id
      = (.ok (decide (((d.filter (fun r => r.id = id)).length : Int) > 0)),
          d.filter (fun r => r.id ≠ id)) := by
    intro d
    simp [ProductRepo.DeleteProduct, hq, hexec, exec_delete, rowsAffectedPositive, hcount]
  constructor
  · intro hno
    obtain ⟨h1, h2, h3⟩ := filter_none_match db id hno
    constructor
    · simp only [ProductRepo.UpdateProduct, hq, hexec, exec_update, rowsAffectedPositive, hcount,
        h1, h3]
      simp
    · rw [hdel, h1, h2]
      simp
  · rintro ⟨row, hrow, hid⟩
    have hpos : (db.filter (fun r => r.id = id)).length > 0 := by
      apply List.length_pos_of_mem (a := row)
      simp [hrow, hid]
    have hgone : ∀ row2 ∈ db.filter (fun r => r.id ≠ id), row2.id ≠ id := by
      intro row2 h2
      simpa using (List.mem_filter.1 h2).2
    obtain ⟨h1, h2, _⟩ := filter_none_match _ id hgone
    constructor
    · rw [hdel]
      simp only [gt_iff_lt, Nat.cast_pos, hpos, decide_True]
    · rw [hdel db]
      simp only []
      rw [hdel, h1, h2]
      simp

/-- C9, witness: a store with the rows 1 and 2; identifier 5 matches none, identifier 2
matches one. -/
theorem update_delete_zero_rows_witness :
    (NewProductRepo (NewManager samplePath)).UpdateProduct noFaults
        [⟨1, "a".toList, none, none, none⟩, ⟨2, "b".toList, none, none, none⟩] 5
        (named "c".toList)
      = (.ok false, [⟨1, "a".toList, none, none, none⟩, ⟨2, "b".toList, none, none, none⟩]) ∧
      ((NewProductRepo (NewManager samplePath)).DeleteProduct noFaults
        [⟨1, "a".toList, none, none, none⟩, ⟨2, "b".toList, none, none, none⟩] 2).1
      = .ok true := by
  constructor
  · exact ((update_delete_zero_rows (NewProductRepo (NewManager samplePath)) noFaults
      [⟨1, "a".toList, none, none, none⟩, ⟨2, "b".toList, none, none, none⟩] 5
      (named "c".toList) rfl rfl rfl).1 (by decide)).1
  · exact ((update_delete_zero_rows (NewProductRepo (NewManager samplePath)) noFaults
      [⟨1, "a".toList, none, none, none⟩, ⟨2, "b".toList, none, none, none⟩] 2
      (named "c".toList) rfl rfl rfl).2 ⟨⟨2, "b".toList, none, none, none⟩, by decide, rfl⟩).1

/-- C10, counterexample: the row 1 exists, the update is executed, and `RowsAffected`
reports a failure; `UpdateProduct` returns false and no error. -/
theorem UpdateProduct_swallows_count_failure :
    ((NewProductRepo (NewManager samplePath)).UpdateProduct countFails
        [⟨1, "Widget".toList, none, none, none⟩] 1 (named "Gadget".toList))
      = (.ok false, [⟨1, "Gadget".toList, none, none, none⟩]) ∧
      ¬ ∃ e, ((NewProductRepo (NewManager samplePath)).UpdateProduct countFails
        [⟨1, "Widget".toList, none, none, none⟩] 1 (named "Gadget".toList)).1 = .error e := by
  have h : ((NewProductRepo (NewManager samplePath)).UpdateProduct countFails
        [⟨1, "Widget".toList, none, none, none⟩] 1 (named "Gadget".toList))
      = (.ok false, [⟨1, "Gadget".toList, none, none, none⟩]) := by decide
  refine ⟨h, ?_⟩
  rw [h]
  rintro ⟨e, he⟩
  cases he

/-- C10, amended: in every operation of the repository a failure reported by the query,
by a scan that is reached, by the iteration of the rows, by the exec, by begin or by
commit makes the operation return an error; a failure reported by `RowsAffected` is
dropped: `UpdateProduct` and `DeleteProduct` return no error, and the truth value of
`n > 0` for the count `n` returned beside the failure. -/
theorem storage_failures_surface (r : ProductRepo) (f : Faults) (db : Store) (id : Int)
    (inp : Product) :
    ((f.query = true ∨ (∃ i, f.scan = some i ∧ i < db.length) ∨ f.rowsErr = true) →
      ∃ e, r.ListProducts f db = .error e) ∧
    ((f.query = true ∨ f.scan = some 0) → ∃ e, r.GetProduct f db id = .error e) ∧
    ((f.begin = true ∨ f.query = true ∨ f.scan = some 0 ∨ f.exec = true ∨ f.commit = true) →
      ∃ e, (r.CreateProduct f db inp).1 = .error e) ∧
    (f.exec = true →
      (∃ e, (r.UpdateProduct f db id inp).1 = .error e) ∧
      ∃ e, (r.DeleteProduct f db id).1 = .error e) ∧
    (∀ n, f.exec = false → f.rowsAffected = some n → r.Q.Get = defaultQueries →
      (r.UpdateProduct f db id inp).1 = .ok (decide (n > 0)) ∧
      (r.DeleteProduct f db id).1 = .ok (decide (n > 0))) := by
  refine ⟨?_, GetProduct_fault r f db id, ?_, ?_, ?_⟩
  · rintro (h | ⟨i, hf, hi⟩ | h)
    · exact ListProducts_query_fault r f db h
    · exact ListProducts_scan_fault r f db i hf hi
    · exact ListProducts_rowsErr_fault r f db h
  · intro h
    obtain ⟨e, he⟩ := CreateProduct_fault r f db inp h
    exact ⟨e, by rw [he]⟩
  · intro h
    constructor
    · exact ⟨.storage, by simp [ProductRepo.UpdateProduct, h]⟩
    · exact ⟨.storage, by simp [ProductRepo.DeleteProduct, h]⟩
  · intro n hexec hn hq
    constructor
    · simp [ProductRepo.UpdateProduct, hq, hexec, exec_update, rowsAffectedPositive, hn]
    · simp [ProductRepo.DeleteProduct, hq, hexec, exec_delete, rowsAffectedPositive, hn]

/-- C10, witness: a failing commit makes `CreateProduct` return an error. -/
theorem storage_failures_surface_witness :
    ∃ e, ((NewProductRepo (NewManager samplePath)).CreateProduct
      { noFaults with commit := true } [] (named "Widget".toList)).1 = .error e :=
  (storage_failures_surface (NewProductRepo (NewManager samplePath))
    { noFaults with commit := true } [] 0 (named "Widget".toList)).2.2.1
    (Or.inr (Or.inr (Or.inr (Or.inr rfl))))

/-! ## Lemmas on the mapping of rows -/

theorem buildProduct_fields (id : Int) (name : Str) (v c : NullString) (b : Option Bytes) :
    (buildProduct id name v c b).AttributesVarchar = (if v.Valid then some v.String else none) ∧
      (buildProduct id name v c b).AttributesClob = (if c.Valid then some c.String else none) ∧
      (buildProduct id name v c b).AttributesBlob = b ∧
      (buildProduct id name v c b).ProductID = id ∧
      (buildProduct id name v c b).Name = name := by
  obtain ⟨vs, vv⟩ := v
  obtain ⟨cs, cv⟩ := c
  cases vv <;> cases cv <;> simp [buildProduct]

theorem scanNullString_ok (c : Value) (ns : NullString) (h : scanNullString c = .ok ns) :
    ((if ns.Valid then some ns.String else none) = none ↔ c = .null) ∧
      (∀ s, c = .text s → (if ns.Valid then some ns.String else none) = some s) ∧
      (∀ n, c = .int n → (if ns.Valid then some ns.String else none) = some (decimal n)) ∧
      (∀ b, c = .blob b → (if ns.Valid then some ns.String else none) = some (decodeUTF8 b)) := by
  cases c <;> injection h with h <;> subst h <;> simp

theorem scanBytes_ok (c : Value) (o : Option Bytes) (h : scanBytes c = .ok o) :
    (o = none ↔ c = .null) ∧ (∀ b, c = .blob b → o = some b) ∧
      (∀ s, c = .text s → o = some (encodeUTF8 s)) ∧
      (∀ n, c = .int n → o = some (encodeUTF8 (decimal n))) := by
  cases c <;> injection h with h <;> subst h <;> simp

theorem scanListRow_inv (f : Faults) (i : Nat) (c0 c1 c2 c3 c4 : Value) (p : Product)
    (h : scanListRow f i [c0, c1, c2, c3, c4] = .ok p) :
    ∃ id name v c b, scanInt64 c0 = .ok id ∧ scanString c1 = .ok name ∧
      scanNullString c2 = .ok v ∧ scanNullString c3 = .ok c ∧ scanBytes c4 = .ok b ∧
      p = buildProduct id name v c b := by
  unfold scanListRow at h
  by_cases hf : f.scan = some i
  · simp [hf] at h
  simp only [hf, if_false] at h
  cases h0 : scanInt64 c0 with
  | error e => rw [h0] at h; split at h <;> simp_all
  | ok id =>
  cases h1 : scanString c1 with
  | error e => rw [h0, h1] at h; split at h <;> simp_all
  | ok name =>
  cases h2 : scanNullString c2 with
  | error e => rw [h0, h1, h2] at h; split at h <;> simp_all
  | ok v =>
  cases h3 : scanNullString c3 with
  | error e => rw [h0, h1, h2, h3] at h; split at h <;> simp_all
  | ok c =>
  cases h4 : scanBytes c4 with
  | error e => rw [h0, h1, h2, h3, h4] at h; split at h <;> simp_all
  | ok b =>
    rw [h0, h1, h2, h3, h4] at h
    simp only [] at h
    injection h with h
    exact ⟨id, name, v, c, b, rfl, rfl, rfl, rfl, rfl, h.symm⟩

theorem scanListRow_columns (f : Faults) (i : Nat) (c0 c1 c2 c3 c4 : Value) (p : Product)
    (h : scanListRow f i [c0, c1, c2, c3, c4] = .ok p) :
    ((p.AttributesVarchar = none ↔ c2 = .null) ∧
      (∀ s, c2 = .text s → p.AttributesVarchar = some s) ∧
      (∀ n, c2 = .int n → p.AttributesVarchar = some (decimal n)) ∧
      (∀ b, c2 = .blob b → p.AttributesVarchar = some (decodeUTF8 b))) ∧
    ((p.AttributesClob = none ↔ c3 = .null) ∧
      (∀ s, c3 = .text s → p.AttributesClob = some s) ∧
      (∀ n, c3 = .int n → p.AttributesClob = some (decimal n)) ∧
      (∀ b, c3 = .blob b → p.AttributesClob = some (decodeUTF8 b))) ∧
    ((p.AttributesBlob = none ↔ c4 = .null) ∧
      (∀ b, c4 = .blob b → p.AttributesBlob = some b) ∧
      (∀ s, c4 = .text s → p.AttributesBlob = some (encodeUTF8 s)) ∧
      (∀ n, c4 = .int n → p.AttributesBlob = some (encodeUTF8 (decimal n)))) := by
  obtain ⟨id, name, v, c, b, _, _, h2, h3, h4, hp⟩ := scanListRow_inv f i c0 c1 c2 c3 c4 p h
  obtain ⟨f1, f2, f3, _, _⟩ := buildProduct_fields id name v c b
  subst hp
  rw [f1, f2, f3]
  exact ⟨scanNullString_ok c2 v h2, scanNullString_ok c3 c h3, scanBytes_ok c4 b h4⟩

theorem scanListRow_row (f : Faults) (i : Nat) (row : Row) (hf : f.scan ≠ some i)
    (hid : inInt64 row.id = true) :
    scanListRow f i [.int row.id, .text row.name, optText row.attrV, optText row.attrC,
      optBlob row.attrB] = .ok (productOfRow row) := by
  obtain ⟨id, name, v, c, b⟩ := row
  cases v <;> cases c <;> cases b <;>
    simp_all [scanListRow, scanInt64, scanString, scanNullString, scanBytes, optText, optBlob,
      buildProduct, productOfRow]

theorem scanListRow_row_inv (f : Faults) (i : Nat) (row : Row) (p : Product)
    (h : scanListRow f i [.int row.id, .text row.name, optText row.attrV, optText row.attrC,
      optBlob row.attrB] = .ok p) :
    f.scan ≠ some i ∧ inInt64 row.id = true ∧ p = productOfRow row := by
  by_cases hf : f.scan = some i
  · simp [scanListRow, hf] at h
  · cases hid : inInt64 row.id with
    | false => simp [scanListRow, hf, scanInt64, hid] at h
    | true =>
      rw [scanListRow_row f i row hf hid] at h
      injection h with h
      exact ⟨hf, rfl, h.symm⟩

theorem listLoop_rows_inv (f : Faults) (rows : List Row) (j : Nat) (items res : List Product)
    (h : listLoop f j (rows.map (fun r => [Value.int r.id, Value.text r.name, optText r.attrV,
      optText r.attrC, optBlob r.attrB])) items = .ok res) :
    res = items ++ rows.map productOfRow := by
  induction rows generalizing j items with
  | nil =>
    simp only [List.map_nil, listLoop] at h
    injection h with h
    simp [h]
  | cons row rest ih =>
    simp only [List.map_cons, listLoop] at h
    cases hs : scanListRow f j [.int row.id, .text row.name, optText row.attrV,
        optText row.attrC, optBlob row.attrB] with
    | error e => simp [hs] at h
    | ok p =>
      simp only [hs] at h
      obtain ⟨_, _, hp⟩ := scanListRow_row_inv f j row p hs
      rw [ih _ _ h, hp]
      simp

theorem listLoop_rows (f : Faults) (hf : f.scan = none) (rows : List Row) (j : Nat)
    (items : List Product) (hid : ∀ row ∈ rows, inInt64 row.id = true) :
    listLoop f j (rows.map (fun r => [Value.int r.id, Value.text r.name, optText r.attrV,
      optText r.attrC, optBlob r.attrB])) items = .ok (items ++ rows.map productOfRow) := by
  induction rows generalizing j items with
  | nil => simp [listLoop]
  | cons row rest ih =>
    simp only [List.map_cons, listLoop]
    rw [scanListRow_row f j row (by simp [hf]) (hid row (List.mem_cons_self _ _))]
    simp only []
    rw [ih _ _ (fun r hr => hid r (List.mem_cons_of_mem _ hr))]
    simp

theorem query_listProducts (db : Store) :
    db.query defaultQueries.ListProducts []
      = .ok ((db.insertionSort (fun a b => a.id ≤ b.id)).map (fun r =>
          [Value.int r.id, Value.text r.name, optText r.attrV, optText r.attrC,
            optBlob r.attrB])) := by
  simp [Store.query]

theorem query_getProduct (db : Store) (id : Int) :
    db.query defaultQueries.GetProduct [.int id]
      = .ok ((db.filter (fun r => r.id = id)).map (fun r =>
          [Value.text r.name, optText r.attrV, optText r.attrC, optBlob r.attrB])) := by
  have h1 : defaultQueries.GetProduct ≠ defaultQueries.ListProducts := by decide
  simp [Store.query, h1]

theorem getScan_row (id : Int) (row : Row) :
    (match scanString (Value.text row.name), scanNullString (optText row.attrV),
        scanNullString (optText row.attrC), scanBytes (optBlob row.attrB) with
      | .ok name, .ok attrV, .ok attrC, .ok attrB =>
        (Except.ok (buildProduct id name attrV attrC attrB) : Except Err Product)
      | _, _, _, _ => .error .storage)
      = .ok { productOfRow row with ProductID := id } := by
  obtain ⟨rid, name, v, c, b⟩ := row
  cases v <;> cases c <;> cases b <;>
    simp [scanString, scanNullString, scanBytes, optText, optBlob, buildProduct, productOfRow]

theorem GetProduct_eq (r : ProductRepo) (f : Faults) (db : Store) (id : Int)
    (hq : r.Q.Get = defaultQueries) (h1 : f.query = false) :
    r.GetProduct f db id =
      match (db.filter (fun x => x.id = id)).head? with
      | none => .error .noRows
      | some row =>
        if f.scan = some 0 then .error .storage
        else .ok { productOfRow row with ProductID := id } := by
  unfold ProductRepo.GetProduct
  rw [hq, query_getProduct]
  simp only [h1, Bool.false_eq_true, if_false]
  cases hfil : db.filter (fun x => x.id = id) with
  | nil => simp
  | cons row rest =>
    simp only [List.map_cons, List.head?_cons]
    by_cases hs : f.scan = some 0
    · simp [hs]
    · simp only [hs, if_false]
      exact getScan_row id row

theorem ListProducts_ok_inv (r : ProductRepo) (f : Faults) (db : Store) (items : List Product)
    (hq : r.Q.Get = defaultQueries) (h : r.ListProducts f db = .ok items) :
    items = (db.insertionSort (fun a b => a.id ≤ b.id)).map productOfRow := by
  unfold ProductRepo.ListProducts at h
  rw [hq, query_listProducts] at h
  cases hfq : f.query with
  | true => simp [hfq] at h
  | false =>
    simp only [hfq, Bool.false_eq_true, if_false] at h
    cases hl : listLoop f 0 ((db.insertionSort (fun a b => a.id ≤ b.id)).map (fun r =>
        [Value.int r.id, Value.text r.name, optText r.attrV, optText r.attrC,
          optBlob r.attrB])) [] with
    | error e => simp [hl] at h
    | ok res =>
      have hres := listLoop_rows_inv f _ 0 [] res hl
      simp only [hl] at h
      by_cases hre : f.rowsErr = true
      · simp [hre] at h
      · simp only [hre, if_false] at h
        injection h with h
        rw [← h, hres]
        simp

theorem ListProducts_eq (r : ProductRepo) (f : Faults) (db : Store)
    (hq : r.Q.Get = defaultQueries) (h1 : f.query = false) (h2 : f.scan = none)
    (h3 : f.rowsErr = false) (hid : ∀ row ∈ db, inInt64 row.id = true) :
    r.ListProducts f db = .ok ((db.insertionSort (fun a b => a.id ≤ b.id)).map productOfRow) := by
  unfold ProductRepo.ListProducts
  rw [hq, query_listProducts]
  have hid2 : ∀ row ∈ db.insertionSort (fun a b => a.id ≤ b.id), inInt64 row.id = true :=
    fun row hrow => hid row ((List.perm_insertionSort _ db).subset hrow)
  simp [h1, h3, listLoop_rows f h2 _ 0 [] hid2]

/-! ## Claim on the mapping of rows -/

/-- C11: with the default templates, the products that `ListProducts` returns stand, one
for one and in the order of the identifiers, for the rows of the table, and the product
that `GetProduct` returns stands for the first row with the identifier: each of
`AttributesVarchar`, `AttributesClob` and `AttributesBlob` is the value of its own column,
absent exactly for null, whatever the other two columns hold.  For any five columns that
a scan accepts, a field is absent exactly when its own column is null, and for a column
that is not null it holds the column's value, the empty value included, as `database/sql`
converts it to the field's type.  Both operations return when no storage call fails (and,
for `ListProducts`, the identifiers fit `int64`). -/
theorem attribute_fields_follow_columns (r : ProductRepo) (f : Faults) (db : Store) (id : Int)
    (hq : r.Q.Get = defaultQueries) :
    (∀ items, r.ListProducts f db = .ok items →
      List.Forall₂ (fun (row : Row) (p : Product) =>
          p.AttributesVarchar = row.attrV ∧ p.AttributesClob = row.attrC ∧
          p.AttributesBlob = row.attrB ∧ p.ProductID = row.id ∧ p.Name = row.name)
        (db.insertionSort (fun a b => a.id ≤ b.id)) items) ∧
    (∀ p, r.GetProduct f db id = .ok p →
      ∃ row, (db.filter (fun x => x.id = id)).head? = some row ∧
        p.AttributesVarchar = row.attrV ∧ p.AttributesClob = row.attrC ∧
        p.AttributesBlob = row.attrB ∧ p.ProductID = id ∧ p.Name = row.name) ∧
    (∀ i c0 c1 c2 c3 c4 p, scanListRow f i [c0, c1, c2, c3, c4] = .ok p →
      ((p.AttributesVarchar = none ↔ c2 = .null) ∧
        (∀ s, c2 = .text s → p.AttributesVarchar = some s) ∧
        (∀ n, c2 = .int n → p.AttributesVarchar = some (decimal n)) ∧
        (∀ b, c2 = .blob b → p.AttributesVarchar = some (decodeUTF8 b))) ∧
      ((p.AttributesClob = none ↔ c3 = .null) ∧
        (∀ s, c3 = .text s → p.AttributesClob = some s) ∧
        (∀ n, c3 = .int n → p.AttributesClob = some (decimal n)) ∧
        (∀ b, c3 = .blob b → p.AttributesClob = some (decodeUTF8 b))) ∧
      ((p.AttributesBlob = none ↔ c4 = .null) ∧
        (∀ b, c4 = .blob b → p.AttributesBlob = some b) ∧
        (∀ s, c4 = .text s → p.AttributesBlob = some (encodeUTF8 s)) ∧
        (∀ n, c4 = .int n → p.AttributesBlob = some (encodeUTF8 (decimal n))))) ∧
    (f.query = false → f.scan = none → f.rowsErr = false →
      (∀ row ∈ db, inInt64 row.id = true) → ∃ items, r.ListProducts f db = .ok items) ∧
    (f.query = false → f.scan ≠ some 0 → (∃ row ∈ db, row.id = id) →
      ∃ p, r.GetProduct f db id = .ok p) := by
  refine ⟨?_, ?_, ?_, ?_, ?_⟩
  · intro items h
    rw [ListProducts_ok_inv r f db items hq h, List.forall₂_map_right_iff, List.forall₂_same]
    intro row _
    exact ⟨rfl, rfl, rfl, rfl, rfl⟩
  · intro p h
    cases hfq : f.query with
    | true => simp [ProductRepo.GetProduct, hfq] at h
    | false =>
      rw [GetProduct_eq r f db id hq hfq] at h
      cases hh : (db.filter (fun x => x.id = id)).head? with
      | none => simp [hh] at h
      | some row =>
        by_cases hs : f.scan = some 0
        · simp [hh, hs] at h
        · simp only [hh, hs, if_false] at h
          injection h with h
          subst h
          exact ⟨row, rfl, rfl, rfl, rfl, rfl, rfl⟩
  · intro i c0 c1 c2 c3 c4 p h
    exact scanListRow_columns f i c0 c1 c2 c3 c4 p h
  · intro h1 h2 h3 hid
    exact ⟨_, ListProducts_eq r f db hq h1 h2 h3 hid⟩
  · rintro h1 h2 ⟨row, hrow, hid⟩
    rw [GetProduct_eq r f db id hq h1]
    cases hh : (db.filter (fun x => x.id = id)).head? with
    | none =>
      have hnil : db.filter (fun x => x.id = id) = [] := by
        cases hfl : db.filter (fun x => x.id = id) with
        | nil => rfl
        | cons a l => rw [hfl] at hh; cases hh
      have : row ∈ db.filter (fun x => x.id = id) := by simp [hrow, hid]
      rw [hnil] at this
      cases this
    | some row2 => exact ⟨{ productOfRow row2 with ProductID := id }, by simp [h2]⟩

/-- C11, witness: in `sampleRows` the row 1 has an empty short text, a null long text and
an empty binary value; the product has the empty short text and the empty binary value
present and the long text absent, and a present empty field is not the absent field.  A
row whose short text column holds the integer 5 and whose binary column holds the text
`xy` gives the short text `5` and the bytes 120, 121. -/
theorem attribute_fields_follow_columns_witness :
    (NewProductRepo (NewManager samplePath)).GetProduct noFaults sampleRows 1
        = .ok ⟨1, "a".toList, some [], none, some []⟩ ∧
      (∃ row, (sampleRows.filter (fun x => x.id = 1)).head? = some row ∧
        (some [] : Option Str) = row.attrV ∧ (none : Option Str) = row.attrC ∧
        (some [] : Option Bytes) = row.attrB ∧ (1 : Int) = 1 ∧ "a".toList = row.name) ∧
      (NewProductRepo (NewManager samplePath)).ListProducts noFaults sampleRows
        = .ok [⟨1, "a".toList, some [], none, some []⟩,
               ⟨2, "b".toList, none, some "x".toList, none⟩] ∧
      (some [] : Option Str) ≠ none ∧ (some [] : Option Bytes) ≠ none ∧
      scanListRow noFaults 0 [.int 1, .text "a".toList, .int 5, .null, .text "xy".toList]
        = .ok ⟨1, "a".toList, some "5".toList, none, some [120, 121]⟩ ∧
      (some "5".toList : Option Str) = some (decimal 5) :=
  ⟨by decide,
    (attribute_fields_follow_columns (NewProductRepo (NewManager samplePath)) noFaults
      sampleRows 1 rfl).2.1 ⟨1, "a".toList, some [], none, some []⟩ (by decide),
    by decide, by decide, by decide, by decide,
    ((attribute_fields_follow_columns (NewProductRepo (NewManager samplePath)) noFaults
      sampleRows 1 rfl).2.2.1 0 (.int 1) (.text "a".toList) (.int 5) .null
      (.text "xy".toList) ⟨1, "a".toList, some "5".toList, none, some [120, 121]⟩
      (by decide)).1.2.2.1 5 rfl⟩

end GodrorCrud
